import Mathlib

/-!
Shallow embedding of `src/delivery_platform.py` (the order workflow engine,
the escrow ledger, the rider dispatch queue and the journey projector) for
checking the natural-language specification against the code.

Modelling conventions, stated once here:
* Python float money amounts are modelled as exact integers (`Int`): the
  source only stores, adds and multiplies whole-unit amounts (prices,
  quantities, fees), on which float arithmetic is exact; the one genuinely
  fractional value, the journey progress percentage, is modelled as `ℚ`.
* Wall-clock values (`created_at`, `rider_acceptance_deadline`, the
  `timestamp` field of history entries) are omitted: real time is outside the
  embedding and no claim depends on it.
* Python dicts are insertion-ordered maps, modelled as association lists;
  assignment replaces the value in place for an existing key and appends a new
  binding for a fresh key (`dictInsert`).
* uuid identities are plain strings, supplied by the caller of the operation;
  uuid freshness is a side condition of the guarded-trace relation below.
* The Haversine comparison inside the two GPS checks is the only
  floating-point trigonometry in the engine; no claim concerns geodesy, so
  each check operation takes the boolean outcome of the comparison
  `distance(rider_location, target) <= gps_tolerance` as a parameter.
* Python methods mutate `self` and return a bool; here every transition
  operation returns a `StepOut` bundling the returned bool, the successor
  platform state and a crash flag. The crash flag records the one unguarded
  attribute access in the source (`confirm_delivery` dereferences
  `order.assigned_rider` without a null check) together with the partial
  mutations that precede the raised `AttributeError`.
* `Order.assigned_rider` holds the rider id; the Python field holds an object
  reference aliased with the `riders` dict entry, so mutations through it are
  modelled as updates of the riders map at that id. A dangling id cannot
  arise for Python callers, since riders are never removed from the dict.
-/

/-- The twelve members of the `OrderStatus` enum, in source order. -/
inductive OrderStatus
  | pending_payment
  | payment_escrowed
  | restaurant_notified
  | restaurant_confirmed
  | seeking_rider
  | rider_assigned
  | rider_en_route_pickup
  | rider_at_restaurant
  | order_picked_up
  | rider_en_route_delivery
  | rider_at_delivery
  | delivered
  deriving DecidableEq, Repr

/-- The string value attached to each `OrderStatus` enum member. -/
def OrderStatus.value : OrderStatus → String
  | .pending_payment => "pending_payment"
  | .payment_escrowed => "payment_escrowed"
  | .restaurant_notified => "restaurant_notified"
  | .restaurant_confirmed => "restaurant_confirmed"
  | .seeking_rider => "seeking_rider"
  | .rider_assigned => "rider_assigned"
  | .rider_en_route_pickup => "rider_en_route_pickup"
  | .rider_at_restaurant => "rider_at_restaurant"
  | .order_picked_up => "order_picked_up"
  | .rider_en_route_delivery => "rider_en_route_delivery"
  | .rider_at_delivery => "rider_at_delivery"
  | .delivered => "delivered"

/-- Zero-based position of a status in the canonical 12-step ordering. -/
def statusIdx : OrderStatus → Nat
  | .pending_payment => 0
  | .payment_escrowed => 1
  | .restaurant_notified => 2
  | .restaurant_confirmed => 3
  | .seeking_rider => 4
  | .rider_assigned => 5
  | .rider_en_route_pickup => 6
  | .rider_at_restaurant => 7
  | .order_picked_up => 8
  | .rider_en_route_delivery => 9
  | .rider_at_delivery => 10
  | .delivered => 11

/-- The canonical 12-step ordering of statuses. -/
def canonicalOrder : List OrderStatus :=
  [.pending_payment, .payment_escrowed, .restaurant_notified,
   .restaurant_confirmed, .seeking_rider, .rider_assigned,
   .rider_en_route_pickup, .rider_at_restaurant, .order_picked_up,
   .rider_en_route_delivery, .rider_at_delivery, .delivered]

/-- The `PaymentStatus` enum. -/
inductive PaymentStatus
  | pending
  | escrowed
  | restaurant_paid
  | rider_half_paid
  | rider_full_paid
  deriving DecidableEq, Repr

/-- A geographic location; `distance_to` itself is not embedded (see the
module comment: the GPS comparison outcome is a parameter of the checks). -/
structure Location where
  latitude : ℚ
  longitude : ℚ
  address : String
  deriving DecidableEq, Repr

structure Customer where
  id : String
  name : String
  email : String
  phone : String
  delivery_location : Location
  deriving DecidableEq, Repr

structure Restaurant where
  id : String
  name : String
  location : Location
  email : String
  phone : String
  bank_account : String
  is_active : Bool := true
  deriving DecidableEq, Repr

structure Rider where
  id : String
  name : String
  email : String
  phone : String
  current_location : Location
  bank_account : String
  is_available : Bool := true
  rating : ℚ := 5
  total_deliveries : Nat := 0
  deriving DecidableEq, Repr

structure OrderItem where
  name : String
  quantity : Nat
  price : Int
  deriving DecidableEq, Repr

/-- Sum of `item.price * item.quantity` over a list of items. -/
def itemsSubtotal (items : List OrderItem) : Int :=
  (items.map (fun i => i.price * (i.quantity : Int))).sum

/-- One entry of `status_history` (the wall-clock timestamp is omitted). -/
structure HistoryEntry where
  status : OrderStatus
  note : String
  deriving DecidableEq, Repr

structure Order where
  id : String
  customer : Customer
  restaurant : Restaurant
  items : List OrderItem
  total_amount : Int
  delivery_fee : Int
  status : OrderStatus
  payment_status : PaymentStatus
  assigned_rider : Option String := none
  status_history : List HistoryEntry := []
  deriving DecidableEq, Repr

/-- `Order.add_status`: set the current status and append a history entry. -/
def Order.add_status (o : Order) (st : OrderStatus) (note : String) : Order :=
  { o with status := st, status_history := o.status_history ++ [⟨st, note⟩] }

/-- One escrow account: the value type of `EscrowSystem.escrow_accounts`. -/
structure EscrowAccount where
  total : Int
  restaurant_amount : Int
  rider_amount : Int
  restaurant_paid : Bool
  rider_half_paid : Bool
  rider_full_paid : Bool
  deriving DecidableEq, Repr

/-- Association-list lookup, the embedding of a Python dict read. -/
def lookupKey {κ α : Type} [DecidableEq κ] (k : κ) : List (κ × α) → Option α
  | [] => none
  | p :: rest => if p.1 = k then some p.2 else lookupKey k rest

/-- Replace the value stored under `k` (no-op on keys other than `k`). -/
def setKey {κ α : Type} [DecidableEq κ] (k : κ) (f : α → α) :
    List (κ × α) → List (κ × α)
  | [] => []
  | p :: rest => (if p.1 = k then (p.1, f p.2) else p) :: setKey k f rest

/-- Python dict assignment `m[k] = v`: replace in place for an existing key,
append the binding for a fresh key (insertion order preserved). -/
def dictInsert {κ α : Type} [DecidableEq κ] (k : κ) (v : α)
    (m : List (κ × α)) : List (κ × α) :=
  if (lookupKey k m).isSome then setKey k (fun _ => v) m else m ++ [(k, v)]

/-- The escrow ledger state: `EscrowSystem.escrow_accounts`. -/
abbrev EscrowAccounts : Type := List (String × EscrowAccount)

/-- `EscrowSystem.create_escrow`: writes a fresh account under `order_id`
(unconditionally, overwriting any existing account) and returns `True`. -/
def create_escrow (accounts : EscrowAccounts) (order_id : String)
    (total restaurant rider : Int) : Bool × EscrowAccounts :=
  (true, dictInsert order_id ⟨total, restaurant, rider, false, false, false⟩ accounts)

/-- `EscrowSystem.pay_restaurant`: sets the restaurant flag once. -/
def pay_restaurant (accounts : EscrowAccounts) (order_id : String) :
    Bool × EscrowAccounts :=
  match lookupKey order_id accounts with
  | some a =>
      if a.restaurant_paid then (false, accounts)
      else (true, setKey order_id (fun a => { a with restaurant_paid := true }) accounts)
  | none => (false, accounts)

/-- `EscrowSystem.pay_rider_half`: sets the rider-half flag once,
independently of the restaurant flag. -/
def pay_rider_half (accounts : EscrowAccounts) (order_id : String) :
    Bool × EscrowAccounts :=
  match lookupKey order_id accounts with
  | some a =>
      if a.rider_half_paid then (false, accounts)
      else (true, setKey order_id (fun a => { a with rider_half_paid := true }) accounts)
  | none => (false, accounts)

/-- `EscrowSystem.pay_rider_full`: succeeds only when the account exists
(`escrow` truthy: the account dict is never empty), `rider_half_paid` is
already true and `rider_full_paid` is not yet true. -/
def pay_rider_full (accounts : EscrowAccounts) (order_id : String) :
    Bool × EscrowAccounts :=
  match lookupKey order_id accounts with
  | some a =>
      if a.rider_half_paid ∧ ¬ a.rider_full_paid then
        (true, setKey order_id (fun a => { a with rider_full_paid := true }) accounts)
      else (false, accounts)
  | none => (false, accounts)

/-- The `DeliveryPlatform` state (configuration timeout omitted: wall-clock). -/
structure PState where
  orders : List (String × Order)
  customers : List (String × Customer)
  restaurants : List (String × Restaurant)
  riders : List (String × Rider)
  escrow_accounts : EscrowAccounts
  gps_tolerance : Int
  rider_queue : List String
  deriving DecidableEq, Repr

/-- The empty platform as built by `DeliveryPlatform.__init__` with the
default `gps_tolerance_meters = 50`. -/
def initState : PState :=
  { orders := [], customers := [], restaurants := [], riders := [],
    escrow_accounts := [], gps_tolerance := 50, rider_queue := [] }

/-- Result of one mutating engine method: the returned bool, the successor
state, and whether the method raised (see the module comment). -/
structure StepOut where
  ret : Bool
  state : PState
  crashed : Bool
  deriving DecidableEq, Repr

/-- `DeliveryPlatform.register_customer` (the fresh uuid is the argument). -/
def register_customer (s : PState) (cid name email phone : String)
    (loc : Location) : PState :=
  { s with customers := dictInsert cid ⟨cid, name, email, phone, loc⟩ s.customers }

/-- `DeliveryPlatform.register_restaurant`. -/
def register_restaurant (s : PState) (rid name : String) (loc : Location)
    (email phone bank_account : String) : PState :=
  { s with restaurants :=
      dictInsert rid ⟨rid, name, loc, email, phone, bank_account, true⟩ s.restaurants }

/-- `DeliveryPlatform.register_rider`: stores the rider and appends its id to
the dispatch queue. -/
def register_rider (s : PState) (rid name email phone : String)
    (loc : Location) (bank_account : String) : PState :=
  { s with
      riders := dictInsert rid ⟨rid, name, email, phone, loc, bank_account, true, 5, 0⟩ s.riders,
      rider_queue := s.rider_queue ++ [rid] }

/-- `DeliveryPlatform.place_order`: computes the total, stores the order and
opens its history with a `PENDING_PAYMENT` entry. -/
def place_order (s : PState) (oid : String) (customer : Customer)
    (restaurant : Restaurant) (items : List OrderItem) (delivery_fee : Int) : PState :=
  let total := itemsSubtotal items + delivery_fee
  let order : Order :=
    { id := oid, customer := customer, restaurant := restaurant, items := items,
      total_amount := total, delivery_fee := delivery_fee,
      status := .pending_payment, payment_status := .pending,
      assigned_rider := none, status_history := [] }
  let order := order.add_status .pending_payment ("Order created")
  { s with orders := dictInsert oid order s.orders }

/-- `DeliveryPlatform.process_payment`: opens the escrow account for
(restaurant cut, delivery fee) and records escrow plus restaurant
notification. The source has no state guard on this method. -/
def process_payment (s : PState) (oid : String) : StepOut :=
  match lookupKey oid s.orders with
  | none => ⟨false, s, false⟩
  | some o =>
      let restaurant_cut := itemsSubtotal o.items
      let accounts := (create_escrow s.escrow_accounts oid o.total_amount restaurant_cut o.delivery_fee).2
      let o := { o with payment_status := .escrowed }
      let o := o.add_status .payment_escrowed ("Payment secured")
      let o := o.add_status .restaurant_notified ("Restaurant " ++ o.restaurant.name ++ " notified")
      ⟨true, { s with escrow_accounts := accounts, orders := setKey oid (fun _ => o) s.orders }, false⟩

/-- `DeliveryPlatform._assign_next_rider`, reduced to its action on the
riders map and the queue: pop the front id; skip (discard) ids that are
unregistered or unavailable; return the found rider and the remaining queue.
Structural recursion on the queue is the termination argument. -/
def assign_next_rider (riders : List (String × Rider)) :
    List String → Option (String × Rider) × List String
  | [] => (none, [])
  | rider_id :: rest =>
      match lookupKey rider_id riders with
      | none => assign_next_rider riders rest
      | some r =>
          if r.is_available then (some (rider_id, r), rest)
          else assign_next_rider riders rest

/-- The order-mutating wrapper of `_assign_next_rider`: on success binds the
rider to the order and records `RIDER_ASSIGNED` (the acceptance deadline,
a wall-clock value, is omitted). -/
def assign_next_rider_op (s : PState) (oid : String) : Bool × PState :=
  match assign_next_rider s.riders s.rider_queue with
  | (none, q) => (false, { s with rider_queue := q })
  | (some (rid, r), q) =>
      (true,
       { s with rider_queue := q,
                orders := setKey oid (fun o =>
                  ({ o with assigned_rider := some rid }).add_status .rider_assigned
                    ("Assigned to " ++ r.name)) s.orders })

/-- `DeliveryPlatform._seek_rider`: record `SEEKING_RIDER`, then attempt an
assignment. -/
def seek_rider (s : PState) (oid : String) : PState :=
  let s := { s with orders := setKey oid (fun o =>
    o.add_status .seeking_rider ("Finding rider")) s.orders }
  (assign_next_rider_op s oid).2

/-- `DeliveryPlatform.restaurant_confirm_order`: guarded on
`RESTAURANT_NOTIFIED`; pays the restaurant (must succeed), records
confirmation and seeks a rider. -/
def restaurant_confirm_order (s : PState) (oid : String) : StepOut :=
  match lookupKey oid s.orders with
  | none => ⟨false, s, false⟩
  | some o =>
      if o.status = .restaurant_notified then
        match pay_restaurant s.escrow_accounts oid with
        | (true, accounts) =>
            let o := { o with payment_status := .restaurant_paid }
            let o := o.add_status .restaurant_confirmed ("Restaurant confirmed and paid")
            let s := { s with escrow_accounts := accounts,
                              orders := setKey oid (fun _ => o) s.orders }
            ⟨true, seek_rider s oid, false⟩
        | (false, accounts) => ⟨false, { s with escrow_accounts := accounts }, false⟩
      else ⟨false, s, false⟩

/-- `DeliveryPlatform.rider_accept_order`: guarded on `RIDER_ASSIGNED` and on
a rider actually being bound; marks that rider unavailable. -/
def rider_accept_order (s : PState) (oid : String) : StepOut :=
  match lookupKey oid s.orders with
  | none => ⟨false, s, false⟩
  | some o =>
      if o.status = .rider_assigned then
        match o.assigned_rider with
        | none => ⟨false, s, false⟩
        | some rid =>
            ⟨true,
             { s with riders := setKey rid (fun r => { r with is_available := false }) s.riders,
                      orders := setKey oid (fun o =>
                        o.add_status .rider_en_route_pickup ("Rider en route to restaurant")) s.orders },
             false⟩
      else ⟨false, s, false⟩

/-- `DeliveryPlatform.check_rider_at_restaurant`: guarded on
`RIDER_EN_ROUTE_PICKUP`; `at_location` is the outcome of the Haversine
tolerance comparison against the restaurant location. -/
def check_rider_at_restaurant (s : PState) (oid : String) (at_location : Bool) : StepOut :=
  match lookupKey oid s.orders with
  | none => ⟨false, s, false⟩
  | some o =>
      if o.status = .rider_en_route_pickup then
        if at_location then
          ⟨true, { s with orders := setKey oid (fun o =>
            o.add_status .rider_at_restaurant ("Rider at restaurant")) s.orders }, false⟩
        else ⟨false, s, false⟩
      else ⟨false, s, false⟩

/-- `DeliveryPlatform.confirm_pickup`: guarded on `RIDER_AT_RESTAURANT`; pays
the rider half (must succeed), records pickup and en-route-to-customer. -/
def confirm_pickup (s : PState) (oid : String) : StepOut :=
  match lookupKey oid s.orders with
  | none => ⟨false, s, false⟩
  | some o =>
      if o.status = .rider_at_restaurant then
        match pay_rider_half s.escrow_accounts oid with
        | (true, accounts) =>
            let o := { o with payment_status := .rider_half_paid }
            let o := o.add_status .order_picked_up ("Picked up, rider paid 50%")
            let o := o.add_status .rider_en_route_delivery ("En route to customer")
            ⟨true, { s with escrow_accounts := accounts,
                            orders := setKey oid (fun _ => o) s.orders }, false⟩
        | (false, accounts) => ⟨false, { s with escrow_accounts := accounts }, false⟩
      else ⟨false, s, false⟩

/-- `DeliveryPlatform.check_rider_at_delivery`: guarded on
`RIDER_EN_ROUTE_DELIVERY`; `at_location` is the tolerance comparison against
the customer delivery location. -/
def check_rider_at_delivery (s : PState) (oid : String) (at_location : Bool) : StepOut :=
  match lookupKey oid s.orders with
  | none => ⟨false, s, false⟩
  | some o =>
      if o.status = .rider_en_route_delivery then
        if at_location then
          ⟨true, { s with orders := setKey oid (fun o =>
            o.add_status .rider_at_delivery ("Rider at delivery location")) s.orders }, false⟩
        else ⟨false, s, false⟩
      else ⟨false, s, false⟩

/-- `DeliveryPlatform.confirm_delivery`: guarded on `RIDER_AT_DELIVERY`; pays
the rider in full (must succeed), records delivery, then dereferences
`order.assigned_rider` with no null guard: the `none` branch is the
`AttributeError` path, keeping the mutations already performed. -/
def confirm_delivery (s : PState) (oid : String) : StepOut :=
  match lookupKey oid s.orders with
  | none => ⟨false, s, false⟩
  | some o =>
      if o.status = .rider_at_delivery then
        match pay_rider_full s.escrow_accounts oid with
        | (true, accounts) =>
            let o1 := { o with payment_status := .rider_full_paid }
            let o1 := o1.add_status .delivered ("Delivered, rider paid 100%")
            match o.assigned_rider with
            | none =>
                ⟨false, { s with escrow_accounts := accounts,
                                 orders := setKey oid (fun _ => o1) s.orders }, true⟩
            | some rid =>
                ⟨true,
                 { s with escrow_accounts := accounts,
                          orders := setKey oid (fun _ => o1) s.orders,
                          riders := setKey rid (fun r =>
                            { r with total_deliveries := r.total_deliveries + 1,
                                     is_available := true }) s.riders,
                          rider_queue := s.rider_queue ++ [rid] },
                 false⟩
        | (false, accounts) => ⟨false, { s with escrow_accounts := accounts }, false⟩
      else ⟨false, s, false⟩

/-- The journey projector returns a Python dict; its values are modelled by
this sum type. The `coords` constructor exists so that the presence or
absence of a coordinate-valued component of the projection is expressible. -/
inductive JValue
  | str (s : String)
  | nat (n : Nat)
  | rat (q : ℚ)
  | null
  | hist (h : List HistoryEntry)
  | coords (latitude longitude : ℚ)
  deriving DecidableEq, Repr

/-- The fixed `journey_map` lookup of `get_order_journey`, in source order. -/
def journey_map : List (OrderStatus × Nat × String) :=
  [(.pending_payment, 1, "Payment Processing"),
   (.payment_escrowed, 2, "Payment Secured"),
   (.restaurant_notified, 3, "Restaurant Notified"),
   (.restaurant_confirmed, 4, "Restaurant Confirmed"),
   (.seeking_rider, 5, "Finding Rider"),
   (.rider_assigned, 6, "Rider Assigned"),
   (.rider_en_route_pickup, 7, "Rider → Restaurant"),
   (.rider_at_restaurant, 8, "At Restaurant"),
   (.order_picked_up, 9, "Order Picked Up"),
   (.rider_en_route_delivery, 10, "Rider → You"),
   (.rider_at_delivery, 11, "Rider Nearby"),
   (.delivered, 12, "Delivered!")]

/-- `DeliveryPlatform.get_order_journey`: a read-only projection of one
order, returned as the dict of the source (keys in source order). The rider
name is read through the riders map, standing for the object dereference
`order.assigned_rider.name` (a dangling id cannot arise for Python callers). -/
def get_order_journey (s : PState) (o : Order) : List (String × JValue) :=
  let current := (lookupKey o.status journey_map).getD (0, "Unknown")
  [("order_id", JValue.str o.id),
   ("current_status", JValue.str o.status.value),
   ("current_step", JValue.nat current.1),
   ("current_label", JValue.str current.2),
   ("total_steps", JValue.nat 12),
   ("progress_percentage", JValue.rat (((current.1 : ℚ) / 12) * 100)),
   ("assigned_rider",
     match o.assigned_rider with
     | none => JValue.null
     | some rid =>
         match lookupKey rid s.riders with
         | some r => JValue.str r.name
         | none => JValue.null),
   ("history", JValue.hist o.status_history)]

/-- One public engine operation, with the caller-supplied arguments (fresh
uuids, entity records, and the boolean outcome of each GPS comparison). -/
inductive Op
  | register_customer (cid name email phone : String) (loc : Location)
  | register_restaurant (rid name : String) (loc : Location) (email phone bank : String)
  | register_rider (rid name email phone : String) (loc : Location) (bank : String)
  | place_order (oid : String) (customer : Customer) (restaurant : Restaurant)
      (items : List OrderItem) (delivery_fee : Int)
  | process_payment (oid : String)
  | restaurant_confirm_order (oid : String)
  | rider_accept_order (oid : String)
  | check_rider_at_restaurant (oid : String) (at_location : Bool)
  | confirm_pickup (oid : String)
  | check_rider_at_delivery (oid : String) (at_location : Bool)
  | confirm_delivery (oid : String)
  deriving DecidableEq, Repr

/-- Dispatch of one engine operation (creation operations return the created
entity in Python; their `ret` here is the constant `true`). -/
def step (op : Op) (s : PState) : StepOut :=
  match op with
  | .register_customer cid name email phone loc =>
      ⟨true, register_customer s cid name email phone loc, false⟩
  | .register_restaurant rid name loc email phone bank =>
      ⟨true, register_restaurant s rid name loc email phone bank, false⟩
  | .register_rider rid name email phone loc bank =>
      ⟨true, register_rider s rid name email phone loc bank, false⟩
  | .place_order oid c r items fee => ⟨true, place_order s oid c r items fee, false⟩
  | .process_payment oid => process_payment s oid
  | .restaurant_confirm_order oid => restaurant_confirm_order s oid
  | .rider_accept_order oid => rider_accept_order s oid
  | .check_rider_at_restaurant oid b => check_rider_at_restaurant s oid b
  | .confirm_pickup oid => confirm_pickup s oid
  | .check_rider_at_delivery oid b => check_rider_at_delivery s oid b
  | .confirm_delivery oid => confirm_delivery s oid

/-- Run a list of operations left to right, keeping only the state. -/
def run : List Op → PState → PState
  | [], s => s
  | op :: rest, s => run rest (step op s).state

/-- Side conditions of a well-behaved caller: creation operations carry fresh
uuids (as `uuid4` guarantees), and `process_payment` — the one transition the
source does not guard — is only invoked in its documented precondition state
`PENDING_PAYMENT`. All other operations are unconstrained. -/
def opOKb : Op → PState → Bool
  | .register_rider rid _ _ _ _ _, s => (lookupKey rid s.riders).isNone
  | .place_order oid _ _ _ _, s => (lookupKey oid s.orders).isNone
  | .process_payment oid, s =>
      match lookupKey oid s.orders with
      | some o => o.status = .pending_payment
      | none => true
  | _, _ => true

/-- States reachable from the empty platform by engine operations whose
callers respect `opOKb`. -/
inductive GReach : PState → Prop
  | init : GReach initState
  | step (op : Op) (s : PState) : GReach s → opOKb op s = true → GReach (step op s).state

/-- One escrow-ledger operation (the four public `EscrowSystem` methods). -/
inductive EOp
  | create (oid : String) (total restaurant rider : Int)
  | payRestaurant (oid : String)
  | payRiderHalf (oid : String)
  | payRiderFull (oid : String)
  deriving DecidableEq, Repr

/-- Apply one ledger operation, keeping only the accounts. -/
def eapply (accounts : EscrowAccounts) : EOp → EscrowAccounts
  | .create oid t r ri => (create_escrow accounts oid t r ri).2
  | .payRestaurant oid => (pay_restaurant accounts oid).2
  | .payRiderHalf oid => (pay_rider_half accounts oid).2
  | .payRiderFull oid => (pay_rider_full accounts oid).2

/-- Run a list of ledger operations left to right. -/
def erun (accounts : EscrowAccounts) : List EOp → EscrowAccounts
  | [] => accounts
  | op :: rest => erun (eapply accounts op) rest

/-- Modelled from the spec: `riderRejectOrTimeout(order) → bool` is listed in
the external interface (§6) and in the transition table (§4.3) but is absent
from `src/delivery_platform.py` — it belongs to the second, near-identical
platform module of the repository that is not under `src/` (only its callers
are). Per the spec's words: precondition `RIDER_ASSIGNED`; "returns current
rider to queue, re-marks available, clears assignment, retries
assignNextRider". The retry is the `_assign_next_rider` of the source. An
order in `RIDER_ASSIGNED` with no bound rider has no rider to return, so the
operation fails without mutating anything. -/
def rider_reject_or_timeout (s : PState) (oid : String) : StepOut :=
  match lookupKey oid s.orders with
  | none => ⟨false, s, false⟩
  | some o =>
      if o.status = .rider_assigned then
        match o.assigned_rider with
        | none => ⟨false, s, false⟩
        | some rid =>
            let s := { s with
              rider_queue := s.rider_queue ++ [rid],
              riders := setKey rid (fun r => { r with is_available := true }) s.riders,
              orders := setKey oid (fun o => { o with assigned_rider := none }) s.orders }
            let out := assign_next_rider_op s oid
            ⟨out.1, out.2, false⟩
      else ⟨false, s, false⟩

/-! Association-list lemmas used throughout. -/

theorem lookupKey_setKey {κ α : Type} [DecidableEq κ] (k : κ) (f : α → α)
    (m : List (κ × α)) : lookupKey k (setKey k f m) = (lookupKey k m).map f := by
  induction m with
  | nil => rfl
  | cons p rest ih =>
      obtain ⟨a, b⟩ := p
      by_cases h : a = k
      · simp [setKey, lookupKey, h]
      · simp [setKey, lookupKey, h, ih]

theorem lookupKey_setKey_ne {κ α : Type} [DecidableEq κ] (k k' : κ) (f : α → α)
    (m : List (κ × α)) (hne : k' ≠ k) :
    lookupKey k' (setKey k f m) = lookupKey k' m := by
  induction m with
  | nil => rfl
  | cons p rest ih =>
      obtain ⟨a, b⟩ := p
      by_cases hak : a = k
      · have hak' : ¬ a = k' := fun hc => hne (hc ▸ hak)
        simp [setKey, lookupKey, hak, hak', ih, Ne.symm hne]
      · by_cases hak' : a = k'
        · simp [setKey, lookupKey, hak, hak', hne]
        · simp [setKey, lookupKey, hak, hak', ih]

theorem keys_setKey {κ α : Type} [DecidableEq κ] (k : κ) (f : α → α)
    (m : List (κ × α)) : (setKey k f m).map Prod.fst = m.map Prod.fst := by
  induction m with
  | nil => rfl
  | cons p rest ih =>
      obtain ⟨a, b⟩ := p
      by_cases h : a = k <;> simp [setKey, h, ih]

theorem lookupKey_append {κ α : Type} [DecidableEq κ] (k : κ)
    (m1 m2 : List (κ × α)) :
    lookupKey k (m1 ++ m2) =
      (match lookupKey k m1 with
       | some v => some v
       | none => lookupKey k m2) := by
  induction m1 with
  | nil => simp [lookupKey]
  | cons p rest ih =>
      by_cases h : p.1 = k <;> simp [lookupKey, h, ih]

theorem lookupKey_mem {κ α : Type} [DecidableEq κ] (k : κ) (v : α)
    (m : List (κ × α)) (h : lookupKey k m = some v) : (k, v) ∈ m := by
  induction m with
  | nil => simp [lookupKey] at h
  | cons p rest ih =>
      obtain ⟨a, b⟩ := p
      by_cases hp : a = k
      · subst hp
        simp [lookupKey] at h
        subst h
        exact List.mem_cons_self _ _
      · simp [lookupKey, hp] at h
        exact List.mem_cons_of_mem _ (ih h)

theorem lookupKey_isSome_of_mem {κ α : Type} [DecidableEq κ] (k : κ)
    (m : List (κ × α)) (h : k ∈ m.map Prod.fst) :
    ∃ v, lookupKey k m = some v := by
  induction m with
  | nil => simp at h
  | cons p rest ih =>
      obtain ⟨a, b⟩ := p
      by_cases hp : a = k
      · exact ⟨b, by simp [lookupKey, hp]⟩
      · have h' : k ∈ rest.map Prod.fst := by
          simp only [List.map, List.mem_cons] at h
          rcases h with h | h
          · exact absurd h.symm hp
          · exact h
        simpa [lookupKey, hp] using ih h'

theorem lookupKey_of_mem_nodup {κ α : Type} [DecidableEq κ]
    (m : List (κ × α)) (p : κ × α) (hnd : (m.map Prod.fst).Nodup)
    (hp : p ∈ m) : lookupKey p.1 m = some p.2 := by
  induction m with
  | nil => simp at hp
  | cons q rest ih =>
      obtain ⟨a, b⟩ := q
      simp only [List.map, List.nodup_cons] at hnd
      rcases List.mem_cons.mp hp with h | h
      · subst h; simp [lookupKey]
      · have hq : ¬ a = p.1 := by
          intro hc
          exact hnd.1 (hc ▸ List.mem_map_of_mem Prod.fst h)
        simp only [lookupKey, if_neg hq]
        exact ih hnd.2 h

theorem mem_setKey {κ α : Type} [DecidableEq κ] (k : κ) (f : α → α)
    (m : List (κ × α)) (p : κ × α) (hp : p ∈ setKey k f m) :
    ∃ q ∈ m, p = (if q.1 = k then (q.1, f q.2) else q) := by
  induction m with
  | nil => simp [setKey] at hp
  | cons q rest ih =>
      rcases List.mem_cons.mp hp with h | h
      · exact ⟨q, List.mem_cons_self _ _, h⟩
      · rcases ih h with ⟨q2, hq2, hpq2⟩
        exact ⟨q2, List.mem_cons_of_mem _ hq2, hpq2⟩

theorem lookupKey_dictInsert_self {κ α : Type} [DecidableEq κ] (k : κ) (v : α)
    (m : List (κ × α)) : lookupKey k (dictInsert k v m) = some v := by
  unfold dictInsert
  by_cases h : (lookupKey k m).isSome
  · rcases Option.isSome_iff_exists.mp h with ⟨w, hw⟩
    simp [h, lookupKey_setKey, hw]
  · have hnone : lookupKey k m = none := Option.not_isSome_iff_eq_none.mp h
    simp [h, lookupKey_append, hnone, lookupKey]

theorem lookupKey_dictInsert_ne {κ α : Type} [DecidableEq κ] (k k' : κ) (v : α)
    (m : List (κ × α)) (hne : k' ≠ k) :
    lookupKey k' (dictInsert k v m) = lookupKey k' m := by
  unfold dictInsert
  by_cases h : (lookupKey k m).isSome
  · simp [h, lookupKey_setKey_ne k k' _ m hne]
  · simp [h, lookupKey_append, lookupKey, Ne.symm hne]
    cases lookupKey k' m <;> simp

/-! Failure of an escrow payout mutates nothing (the flag remains the only
mutable part of an account, and it is only written on the success path). -/

theorem pay_restaurant_fail (accounts : EscrowAccounts) (order_id : String)
    (h : (pay_restaurant accounts order_id).1 = false) :
    (pay_restaurant accounts order_id).2 = accounts := by
  unfold pay_restaurant at h ⊢
  cases hlk : lookupKey order_id accounts with
  | none => simp [hlk]
  | some a =>
      by_cases hp : a.restaurant_paid
      · simp [hlk, hp]
      · simp [hlk, hp] at h

theorem pay_rider_half_fail (accounts : EscrowAccounts) (order_id : String)
    (h : (pay_rider_half accounts order_id).1 = false) :
    (pay_rider_half accounts order_id).2 = accounts := by
  unfold pay_rider_half at h ⊢
  cases hlk : lookupKey order_id accounts with
  | none => simp [hlk]
  | some a =>
      by_cases hp : a.rider_half_paid
      · simp [hlk, hp]
      · simp [hlk, hp] at h

theorem pay_rider_full_fail (accounts : EscrowAccounts) (order_id : String)
    (h : (pay_rider_full accounts order_id).1 = false) :
    (pay_rider_full accounts order_id).2 = accounts := by
  unfold pay_rider_full at h ⊢
  cases hlk : lookupKey order_id accounts with
  | none => simp [hlk]
  | some a =>
      by_cases hp : a.rider_half_paid = true ∧ a.rider_full_paid = false
      · simp [hlk, hp] at h
      · simp [hlk, hp]

/-- Effect of `process_payment` on an existing order, in one place: it
always succeeds, overwrites the escrow account, rewrites the order to
escrowed-then-notified, and touches neither riders nor the queue. -/
theorem process_payment_spec (s : PState) (oid : String) (o : Order)
    (hlk : lookupKey oid s.orders = some o) :
    (process_payment s oid).ret = true ∧
    (process_payment s oid).crashed = false ∧
    (process_payment s oid).state.escrow_accounts
      = dictInsert oid ⟨o.total_amount, itemsSubtotal o.items, o.delivery_fee,
          false, false, false⟩ s.escrow_accounts ∧
    lookupKey oid (process_payment s oid).state.orders
      = some { o with payment_status := .escrowed,
                      status := .restaurant_notified,
                      status_history := o.status_history ++
                        [⟨.payment_escrowed, "Payment secured"⟩,
                         ⟨.restaurant_notified, "Restaurant " ++ o.restaurant.name ++ " notified"⟩] } ∧
    (process_payment s oid).state.riders = s.riders ∧
    (process_payment s oid).state.rider_queue = s.rider_queue := by
  simp [process_payment, hlk, lookupKey_setKey, create_escrow, Order.add_status]

/-- C1 (amended): each of the six guarded transition operations
(restaurantConfirmOrder, riderAcceptOrder, checkRiderAtRestaurant,
confirmPickup, checkRiderAtDelivery, confirmDelivery) first checks that the
order is in its exact required precondition state, and on a mismatch returns
a failure result leaving the whole platform state (orders, escrow ledger,
rider records, dispatch queue) unchanged and raising nothing; processPayment,
by contrast, carries no state guard: invoked on an existing order in any
state it returns success and mutates the state. -/
theorem C1_amended_guards (s : PState) (oid : String) (o : Order)
    (hlk : lookupKey oid s.orders = some o) :
    (o.status ≠ .restaurant_notified → restaurant_confirm_order s oid = ⟨false, s, false⟩) ∧
    (o.status ≠ .rider_assigned → rider_accept_order s oid = ⟨false, s, false⟩) ∧
    (∀ b, o.status ≠ .rider_en_route_pickup → check_rider_at_restaurant s oid b = ⟨false, s, false⟩) ∧
    (o.status ≠ .rider_at_restaurant → confirm_pickup s oid = ⟨false, s, false⟩) ∧
    (∀ b, o.status ≠ .rider_en_route_delivery → check_rider_at_delivery s oid b = ⟨false, s, false⟩) ∧
    (o.status ≠ .rider_at_delivery → confirm_delivery s oid = ⟨false, s, false⟩) ∧
    ((process_payment s oid).ret = true ∧ (process_payment s oid).state ≠ s) := by
  refine ⟨?_, ?_, ?_, ?_, ?_, ?_, ?_, ?_⟩
  · intro h; simp [restaurant_confirm_order, hlk, h]
  · intro h; simp [rider_accept_order, hlk, h]
  · intro b h; simp [check_rider_at_restaurant, hlk, h]
  · intro h; simp [confirm_pickup, hlk, h]
  · intro b h; simp [check_rider_at_delivery, hlk, h]
  · intro h; simp [confirm_delivery, hlk, h]
  · exact (process_payment_spec s oid o hlk).1
  · intro heq
    obtain ⟨hret, hcrash, hesc, hord, hrid, hq⟩ := process_payment_spec s oid o hlk
    rw [heq, hlk] at hord
    have h2 := Option.some.inj hord
    have h3 := congrArg (fun ord => ord.status_history.length) h2
    simp at h3

/-- C3 (amended): `create_escrow` is not guarded against an existing account:
it unconditionally overwrites the stored account with a fresh one (all payout
flags false) and returns true, also on a second call for the same order id;
consequently calling processPayment twice on the same order re-opens the
escrow account — the second call returns success again and resets the account
to a fresh one (same amounts, all flags cleared) instead of being a no-op. -/
theorem C3_amended_create_overwrites (accounts : EscrowAccounts) (oid : String)
    (t r ri : Int) (s : PState) (o : Order) (hlk : lookupKey oid s.orders = some o) :
    (create_escrow accounts oid t r ri).1 = true ∧
    lookupKey oid (create_escrow accounts oid t r ri).2 = some ⟨t, r, ri, false, false, false⟩ ∧
    (process_payment (process_payment s oid).state oid).ret = true ∧
    lookupKey oid (process_payment (process_payment s oid).state oid).state.escrow_accounts
      = some ⟨o.total_amount, itemsSubtotal o.items, o.delivery_fee, false, false, false⟩ := by
  obtain ⟨hret1, hcrash1, hesc1, hord1, hrid1, hq1⟩ := process_payment_spec s oid o hlk
  obtain ⟨hret2, hcrash2, hesc2, hord2, hrid2, hq2⟩ :=
    process_payment_spec (process_payment s oid).state oid _ hord1
  refine ⟨rfl, lookupKey_dictInsert_self _ _ _, hret2, ?_⟩
  rw [hesc2]
  exact lookupKey_dictInsert_self _ _ _

/-- C9: the skip-unavailable dequeue `_assign_next_rider` is total — each
recursive step removes the front entry (the remaining queue is always a
sublist of the input queue), and on a queue consisting entirely of stale
entries (unregistered ids or riders marked unavailable) it consumes the whole
queue and returns the empty result instead of recursing forever. -/
theorem C9_assign_terminates (riders : List (String × Rider)) :
    (∀ queue : List String, ((assign_next_rider riders queue).2).Sublist queue) ∧
    (∀ queue : List String,
      (∀ rid ∈ queue, ∀ r, lookupKey rid riders = some r → r.is_available = false) →
      assign_next_rider riders queue = (none, [])) := by
  constructor
  · intro queue
    induction queue with
    | nil => simp [assign_next_rider]
    | cons rid rest ih =>
        cases hlk : lookupKey rid riders with
        | none => simpa [assign_next_rider, hlk] using ih.cons rid
        | some r =>
            by_cases hav : r.is_available
            · simp [assign_next_rider, hlk, hav]
            · simpa [assign_next_rider, hlk, hav] using ih.cons rid
  · intro queue hstale
    induction queue with
    | nil => simp [assign_next_rider]
    | cons rid rest ih =>
        have hrest : ∀ rid2 ∈ rest, ∀ r, lookupKey rid2 riders = some r →
            r.is_available = false := by
          intro rid2 hm r hr
          exact hstale rid2 (List.mem_cons_of_mem _ hm) r hr
        cases hlk : lookupKey rid riders with
        | none => simpa [assign_next_rider, hlk] using ih hrest
        | some r =>
            have hav : r.is_available = false :=
              hstale rid (List.mem_cons_self _ _) r hlk
            simpa [assign_next_rider, hlk, hav] using ih hrest

/-- C10: riderAcceptOrder requires, beyond the `RIDER_ASSIGNED` state, that a
rider is actually bound to the order: it returns success exactly when the
state matches and `assigned_rider` is non-null; with the state matching but
no rider bound it returns failure leaving everything unchanged; and on
success it marks the bound rider unavailable, advances the order to
`RIDER_EN_ROUTE_PICKUP`, and touches neither the queue nor the escrow. -/
theorem C10_accept_requires_rider (s : PState) (oid : String) (o : Order)
    (hlk : lookupKey oid s.orders = some o) :
    ((rider_accept_order s oid).ret = true ↔
      (o.status = .rider_assigned ∧ o.assigned_rider.isSome = true)) ∧
    (o.status = .rider_assigned → o.assigned_rider = none →
      rider_accept_order s oid = ⟨false, s, false⟩) ∧
    (∀ rid r, o.status = .rider_assigned → o.assigned_rider = some rid →
      lookupKey rid s.riders = some r →
      (rider_accept_order s oid).ret = true ∧
      (rider_accept_order s oid).crashed = false ∧
      lookupKey rid (rider_accept_order s oid).state.riders
        = some { r with is_available := false } ∧
      lookupKey oid (rider_accept_order s oid).state.orders
        = some (o.add_status .rider_en_route_pickup ("Rider en route to restaurant")) ∧
      (rider_accept_order s oid).state.rider_queue = s.rider_queue ∧
      (rider_accept_order s oid).state.escrow_accounts = s.escrow_accounts) := by
  refine ⟨?_, ?_, ?_⟩
  · by_cases hst : o.status = .rider_assigned
    · cases har : o.assigned_rider with
      | none => simp [rider_accept_order, hlk, hst, har]
      | some rid => simp [rider_accept_order, hlk, hst, har]
    · simp [rider_accept_order, hlk, hst]
  · intro hst har
    simp [rider_accept_order, hlk, hst, har]
  · intro rid r hst har hr
    simp [rider_accept_order, hlk, hst, har, lookupKey_setKey, hr]

theorem lookupKey_setKey_cases {κ α : Type} [DecidableEq κ] (k k2 : κ) (f : α → α)
    (m : List (κ × α)) (a : α) (h : lookupKey k2 (setKey k f m) = some a) :
    (k2 = k ∧ ∃ a0, lookupKey k2 m = some a0 ∧ a = f a0) ∨
    (k2 ≠ k ∧ lookupKey k2 m = some a) := by
  by_cases he : k2 = k
  · subst he
    rw [lookupKey_setKey] at h
    cases hl : lookupKey k2 m with
    | none => rw [hl] at h; simp at h
    | some a0 =>
        rw [hl] at h
        simp at h
        exact Or.inl ⟨rfl, a0, rfl, h.symm⟩
  · exact Or.inr ⟨he, by rw [← lookupKey_setKey_ne k k2 f m he]; exact h⟩

theorem lookupKey_dictInsert_cases {κ α : Type} [DecidableEq κ] (k k2 : κ) (v : α)
    (m : List (κ × α)) (a : α) (h : lookupKey k2 (dictInsert k v m) = some a) :
    (k2 = k ∧ a = v) ∨ (k2 ≠ k ∧ lookupKey k2 m = some a) := by
  by_cases he : k2 = k
  · subst he
    rw [lookupKey_dictInsert_self] at h
    exact Or.inl ⟨rfl, (Option.some.inj h).symm⟩
  · exact Or.inr ⟨he, by rw [← lookupKey_dictInsert_ne k k2 v m he]; exact h⟩

/-- Ledger invariant: a full-paid account is half-paid. -/
def EInv (accounts : EscrowAccounts) : Prop :=
  ∀ oid a, lookupKey oid accounts = some a →
    a.rider_full_paid = true → a.rider_half_paid = true

theorem EInv_eapply (accounts : EscrowAccounts) (op : EOp) (h : EInv accounts) :
    EInv (eapply accounts op) := by
  cases op with
  | create oid t r ri =>
      intro oid2 a hlk hf
      rcases lookupKey_dictInsert_cases oid oid2 _ accounts a hlk with ⟨he, hv⟩ | ⟨he, hv⟩
      · rw [hv] at hf; simp at hf
      · exact h oid2 a hv hf
  | payRestaurant oid =>
      intro oid2 a hlk hf
      simp only [eapply] at hlk
      unfold pay_restaurant at hlk
      cases hl : lookupKey oid accounts with
      | none => rw [hl] at hlk; exact h oid2 a hlk hf
      | some a0 =>
          rw [hl] at hlk
          by_cases hp : a0.restaurant_paid
          · simp [hp] at hlk; exact h oid2 a hlk hf
          · simp [hp] at hlk
            rcases lookupKey_setKey_cases oid oid2 _ accounts a hlk with ⟨he, a1, hl1, hv⟩ | ⟨he, hv⟩
            · subst hv
              exact h oid2 a1 hl1 (by simpa using hf)
            · exact h oid2 a hv hf
  | payRiderHalf oid =>
      intro oid2 a hlk hf
      simp only [eapply] at hlk
      unfold pay_rider_half at hlk
      cases hl : lookupKey oid accounts with
      | none => rw [hl] at hlk; exact h oid2 a hlk hf
      | some a0 =>
          rw [hl] at hlk
          by_cases hp : a0.rider_half_paid
          · simp [hp] at hlk; exact h oid2 a hlk hf
          · simp [hp] at hlk
            rcases lookupKey_setKey_cases oid oid2 _ accounts a hlk with ⟨he, a1, hl1, hv⟩ | ⟨he, hv⟩
            · subst hv; simp
            · exact h oid2 a hv hf
  | payRiderFull oid =>
      intro oid2 a hlk hf
      simp only [eapply] at hlk
      unfold pay_rider_full at hlk
      cases hl : lookupKey oid accounts with
      | none => rw [hl] at hlk; exact h oid2 a hlk hf
      | some a0 =>
          rw [hl] at hlk
          by_cases hp : a0.rider_half_paid = true ∧ a0.rider_full_paid = false
          · simp [hp] at hlk
            rcases lookupKey_setKey_cases oid oid2 _ accounts a hlk with ⟨he, a1, hl1, hv⟩ | ⟨he, hv⟩
            · subst hv
              have ha : a1 = a0 := by
                rw [he] at hl1
                rw [hl1] at hl
                exact Option.some.inj hl
              simp [ha, hp.1]
            · exact h oid2 a hv hf
          · simp [hp] at hlk; exact h oid2 a hlk hf

theorem EInv_erun (accounts : EscrowAccounts) (ops : List EOp) (h : EInv accounts) :
    EInv (erun accounts ops) := by
  induction ops generalizing accounts with
  | nil => exact h
  | cons op rest ih => exact ih (eapply accounts op) (EInv_eapply accounts op h)

theorem erun_append (accounts : EscrowAccounts) (l1 l2 : List EOp) :
    erun accounts (l1 ++ l2) = erun (erun accounts l1) l2 := by
  induction l1 generalizing accounts with
  | nil => simp [erun]
  | cons op rest ih => simp [erun, ih]

/-- One ledger operation that is not a `create` for `oid` keeps the amounts
of the account under `oid` and never clears a flag that was set. -/
theorem eapply_mono (accounts : EscrowAccounts) (op : EOp) (oid : String)
    (a : EscrowAccount) (hne : ∀ t r ri, op ≠ EOp.create oid t r ri)
    (h : lookupKey oid accounts = some a) :
    ∃ a2, lookupKey oid (eapply accounts op) = some a2 ∧
      a2.total = a.total ∧ a2.restaurant_amount = a.restaurant_amount ∧
      a2.rider_amount = a.rider_amount ∧
      (a.restaurant_paid = true → a2.restaurant_paid = true) ∧
      (a.rider_half_paid = true → a2.rider_half_paid = true) ∧
      (a.rider_full_paid = true → a2.rider_full_paid = true) := by
  cases op with
  | create oid2 t r ri =>
      have hne2 : oid ≠ oid2 := fun hc => hne t r ri (by rw [hc])
      simp only [eapply]
      rw [show (create_escrow accounts oid2 t r ri).2
            = dictInsert oid2 ⟨t, r, ri, false, false, false⟩ accounts from rfl]
      rw [lookupKey_dictInsert_ne oid2 oid _ accounts hne2]
      exact ⟨a, h, rfl, rfl, rfl, fun x => x, fun x => x, fun x => x⟩
  | payRestaurant oid2 =>
      simp only [eapply]
      unfold pay_restaurant
      cases hl : lookupKey oid2 accounts with
      | none => exact ⟨a, h, rfl, rfl, rfl, fun x => x, fun x => x, fun x => x⟩
      | some a0 =>
          by_cases hp : a0.restaurant_paid
          · simp only [hp, if_pos rfl]
            exact ⟨a, h, rfl, rfl, rfl, fun x => x, fun x => x, fun x => x⟩
          · simp only [hp, Bool.false_eq_true, if_false]
            by_cases he : oid = oid2
            · subst he
              rw [lookupKey_setKey, h]
              refine ⟨_, rfl, rfl, rfl, rfl, fun _ => rfl, fun x => x, fun x => x⟩
            · rw [lookupKey_setKey_ne oid2 oid _ accounts he]
              exact ⟨a, h, rfl, rfl, rfl, fun x => x, fun x => x, fun x => x⟩
  | payRiderHalf oid2 =>
      simp only [eapply]
      unfold pay_rider_half
      cases hl : lookupKey oid2 accounts with
      | none => exact ⟨a, h, rfl, rfl, rfl, fun x => x, fun x => x, fun x => x⟩
      | some a0 =>
          by_cases hp : a0.rider_half_paid
          · simp only [hp, if_pos rfl]
            exact ⟨a, h, rfl, rfl, rfl, fun x => x, fun x => x, fun x => x⟩
          · simp only [hp, Bool.false_eq_true, if_false]
            by_cases he : oid = oid2
            · subst he
              rw [lookupKey_setKey, h]
              refine ⟨_, rfl, rfl, rfl, rfl, fun x => x, fun _ => rfl, fun x => x⟩
            · rw [lookupKey_setKey_ne oid2 oid _ accounts he]
              exact ⟨a, h, rfl, rfl, rfl, fun x => x, fun x => x, fun x => x⟩
  | payRiderFull oid2 =>
      simp only [eapply]
      unfold pay_rider_full
      cases hl : lookupKey oid2 accounts with
      | none => exact ⟨a, h, rfl, rfl, rfl, fun x => x, fun x => x, fun x => x⟩
      | some a0 =>
          by_cases hp : a0.rider_half_paid = true ∧ a0.rider_full_paid = false
          · simp only [hp, and_true, if_pos, Bool.not_eq_true, hp.1, hp.2]
            by_cases he : oid = oid2
            · subst he
              rw [lookupKey_setKey, h]
              refine ⟨_, rfl, rfl, rfl, rfl, fun x => x, fun x => x, fun _ => rfl⟩
            · rw [lookupKey_setKey_ne oid2 oid _ accounts he]
              exact ⟨a, h, rfl, rfl, rfl, fun x => x, fun x => x, fun x => x⟩
          · have hp2 : ¬ (a0.rider_half_paid = true ∧ ¬ a0.rider_full_paid = true) := by
              simpa using hp
            simp only [if_neg hp2]
            exact ⟨a, h, rfl, rfl, rfl, fun x => x, fun x => x, fun x => x⟩

/-- If the account under `oid` is half-paid after one ledger operation, then
either that operation was a successful `pay_rider_half` for `oid`, or the
account was already half-paid before it. -/
theorem eapply_half (accounts : EscrowAccounts) (op : EOp) (oid : String)
    (a1 : EscrowAccount) (h1 : lookupKey oid (eapply accounts op) = some a1)
    (hh : a1.rider_half_paid = true) :
    (op = EOp.payRiderHalf oid ∧ (pay_rider_half accounts oid).1 = true) ∨
    (∃ a0, lookupKey oid accounts = some a0 ∧ a0.rider_half_paid = true) := by
  cases op with
  | create oid2 t r ri =>
      rcases lookupKey_dictInsert_cases oid2 oid _ accounts a1 h1 with ⟨he, hv⟩ | ⟨he, hv⟩
      · rw [hv] at hh; simp at hh
      · exact Or.inr ⟨a1, hv, hh⟩
  | payRestaurant oid2 =>
      simp only [eapply] at h1
      unfold pay_restaurant at h1
      cases hl : lookupKey oid2 accounts with
      | none => rw [hl] at h1; exact Or.inr ⟨a1, h1, hh⟩
      | some a0 =>
          rw [hl] at h1
          by_cases hp : a0.restaurant_paid
          · simp only [hp, if_pos rfl] at h1
            exact Or.inr ⟨a1, h1, hh⟩
          · simp only [hp, Bool.false_eq_true, if_false] at h1
            rcases lookupKey_setKey_cases oid2 oid _ accounts a1 h1 with ⟨he, a2, hl2, hv⟩ | ⟨he, hv⟩
            · exact Or.inr ⟨a2, hl2, by rw [hv] at hh; simpa using hh⟩
            · exact Or.inr ⟨a1, hv, hh⟩
  | payRiderHalf oid2 =>
      simp only [eapply] at h1
      unfold pay_rider_half at h1
      cases hl : lookupKey oid2 accounts with
      | none => rw [hl] at h1; exact Or.inr ⟨a1, h1, hh⟩
      | some a0 =>
          rw [hl] at h1
          by_cases hp : a0.rider_half_paid
          · simp only [hp, if_pos rfl] at h1
            exact Or.inr ⟨a1, h1, hh⟩
          · simp only [hp, Bool.false_eq_true, if_false] at h1
            rcases lookupKey_setKey_cases oid2 oid _ accounts a1 h1 with ⟨he, a2, hl2, hv⟩ | ⟨he, hv⟩
            · refine Or.inl ⟨by rw [he], ?_⟩
              rw [← he] at hl
              simp [pay_rider_half, hl, hp]
            · exact Or.inr ⟨a1, hv, hh⟩
  | payRiderFull oid2 =>
      simp only [eapply] at h1
      unfold pay_rider_full at h1
      cases hl : lookupKey oid2 accounts with
      | none => rw [hl] at h1; exact Or.inr ⟨a1, h1, hh⟩
      | some a0 =>
          rw [hl] at h1
          by_cases hp : a0.rider_half_paid = true ∧ a0.rider_full_paid = false
          · simp only [hp, and_true, if_pos, Bool.not_eq_true, hp.1, hp.2] at h1
            rcases lookupKey_setKey_cases oid2 oid _ accounts a1 h1 with ⟨he, a2, hl2, hv⟩ | ⟨he, hv⟩
            · exact Or.inr ⟨a2, hl2, by rw [hv] at hh; simpa using hh⟩
            · exact Or.inr ⟨a1, hv, hh⟩
          · have hp2 : ¬ (a0.rider_half_paid = true ∧ ¬ a0.rider_full_paid = true) := by
              simpa using hp
            simp only [if_neg hp2] at h1
            exact Or.inr ⟨a1, h1, hh⟩

/-- Per trace: a half-paid account can only come from a successful
`pay_rider_half` earlier in the trace (or from half-paid initial state). -/
theorem half_origin (ops : List EOp) :
    ∀ (accounts : EscrowAccounts) (oid : String) (a : EscrowAccount),
    lookupKey oid (erun accounts ops) = some a → a.rider_half_paid = true →
    (∃ l1 l2, ops = l1 ++ EOp.payRiderHalf oid :: l2 ∧
      (pay_rider_half (erun accounts l1) oid).1 = true) ∨
    (∃ a0, lookupKey oid accounts = some a0 ∧ a0.rider_half_paid = true) := by
  induction ops with
  | nil =>
      intro accounts oid a h hh
      exact Or.inr ⟨a, h, hh⟩
  | cons op rest ih =>
      intro accounts oid a h hh
      rcases ih (eapply accounts op) oid a (by simpa [erun] using h) hh with
        ⟨l1, l2, hsplit, hpay⟩ | ⟨a0, hl0, hh0⟩
      · refine Or.inl ⟨op :: l1, l2, by rw [hsplit]; rfl, ?_⟩
        simpa [erun] using hpay
      · rcases eapply_half accounts op oid a0 hl0 hh0 with ⟨hop, hret⟩ | ⟨a2, hl2, hh2⟩
        · exact Or.inl ⟨[], rest, by rw [hop]; rfl, by simpa [erun] using hret⟩
        · exact Or.inr ⟨a2, hl2, hh2⟩

/-- C2 (amended): over every sequence of ledger operations from the empty
ledger, `rider_full_paid` implies `rider_half_paid` in every account; and as
long as the sequence contains no (repeated) `create` for an account's id, its
amounts never change and no payout flag goes from true back to false. A
repeated `create_escrow` for an existing id, however, resets the account
(fresh flags, new amounts) — the unconditional-monotonicity reading of the
claim fails there (see the counterexample). -/
theorem C2_amended_escrow_invariants :
    (∀ (ops : List EOp) (oid : String) (a : EscrowAccount),
        lookupKey oid (erun [] ops) = some a →
        a.rider_full_paid = true → a.rider_half_paid = true) ∧
    (∀ (ops : List EOp) (accounts : EscrowAccounts) (oid : String) (a : EscrowAccount),
        (∀ t r ri, EOp.create oid t r ri ∉ ops) →
        lookupKey oid accounts = some a →
        ∃ a2, lookupKey oid (erun accounts ops) = some a2 ∧
          a2.total = a.total ∧ a2.restaurant_amount = a.restaurant_amount ∧
          a2.rider_amount = a.rider_amount ∧
          (a.restaurant_paid = true → a2.restaurant_paid = true) ∧
          (a.rider_half_paid = true → a2.rider_half_paid = true) ∧
          (a.rider_full_paid = true → a2.rider_full_paid = true)) := by
  constructor
  · intro ops oid a h hf
    have hbase : EInv ([] : EscrowAccounts) := by
      intro oid2 a2 h2
      simp [lookupKey] at h2
    exact EInv_erun [] ops hbase oid a h hf
  · intro ops
    induction ops with
    | nil =>
        intro accounts oid a hno h
        exact ⟨a, h, rfl, rfl, rfl, fun x => x, fun x => x, fun x => x⟩
    | cons op rest ih =>
        intro accounts oid a hno h
        have hne : ∀ t r ri, op ≠ EOp.create oid t r ri := by
          intro t r ri hc
          exact hno t r ri (by rw [← hc]; exact List.mem_cons_self _ _)
        rcases eapply_mono accounts op oid a hne h with
          ⟨a1, hl1, ht1, hr1, hri1, hm1, hm2, hm3⟩
        have hnorest : ∀ t r ri, EOp.create oid t r ri ∉ rest := by
          intro t r ri hc
          exact hno t r ri (List.mem_cons_of_mem _ hc)
        rcases ih (eapply accounts op) oid a1 hnorest hl1 with
          ⟨a2, hl2, ht2, hr2, hri2, hn1, hn2, hn3⟩
        refine ⟨a2, by simpa [erun] using hl2, ?_, ?_, ?_, ?_, ?_, ?_⟩
        · rw [ht2, ht1]
        · rw [hr2, hr1]
        · rw [hri2, hri1]
        · exact fun x => hn1 (hm1 x)
        · exact fun x => hn2 (hm2 x)
        · exact fun x => hn3 (hm3 x)

/-- C4: `pay_rider_full` succeeds exactly when the account exists, is already
half-paid and not yet full-paid; `confirm_delivery` on an order whose escrow
account is missing or not half-paid returns failure and leaves the entire
state (in particular the order's `payment_status`) unchanged; and over any
ledger trace from the empty ledger, a half-paid account can only result from
an earlier successful `pay_rider_half` for the same order id — so a
successful `confirm_delivery` presupposes that earlier half-payment. -/
theorem C4_two_tranche :
    (∀ (accounts : EscrowAccounts) (oid : String),
        (pay_rider_full accounts oid).1 = true ↔
          ∃ a, lookupKey oid accounts = some a ∧
            a.rider_half_paid = true ∧ a.rider_full_paid = false) ∧
    (∀ (s : PState) (oid : String),
        (∀ a, lookupKey oid s.escrow_accounts = some a → a.rider_half_paid = false) →
        confirm_delivery s oid = ⟨false, s, false⟩) ∧
    (∀ (ops : List EOp) (oid : String) (a : EscrowAccount),
        lookupKey oid (erun [] ops) = some a → a.rider_half_paid = true →
        ∃ l1 l2, ops = l1 ++ EOp.payRiderHalf oid :: l2 ∧
          (pay_rider_half (erun [] l1) oid).1 = true) := by
  refine ⟨?_, ?_, ?_⟩
  · intro accounts oid
    constructor
    · intro h
      cases hl : lookupKey oid accounts with
      | none => simp [pay_rider_full, hl] at h
      | some a =>
          by_cases hp : a.rider_half_paid = true ∧ a.rider_full_paid = false
          · exact ⟨a, rfl, hp⟩
          · simp [pay_rider_full, hl, hp] at h
    · rintro ⟨a, hl, hhalf, hfull⟩
      simp [pay_rider_full, hl, hhalf, hfull]
  · intro s oid hno
    cases hlk : lookupKey oid s.orders with
    | none => simp [confirm_delivery, hlk]
    | some o =>
        by_cases hst : o.status = .rider_at_delivery
        · have hfail : (pay_rider_full s.escrow_accounts oid).1 = false := by
            cases hl2 : lookupKey oid s.escrow_accounts with
            | none => simp [pay_rider_full, hl2]
            | some a => simp [pay_rider_full, hl2, hno a hl2]
          have hunch := pay_rider_full_fail _ _ hfail
          have hpair : pay_rider_full s.escrow_accounts oid = (false, s.escrow_accounts) := by
            exact Prod.ext hfail hunch
          simp [confirm_delivery, hlk, hst, hpair]
        · simp [confirm_delivery, hlk, hst]
  · intro ops oid a h hh
    rcases half_origin ops [] oid a h hh with h2 | ⟨a0, hl0, hh0⟩
    · exact h2
    · simp [lookupKey] at hl0

/-- Statuses in which an order holds a rider out of the dispatch queue
(assigned and not yet delivered). -/
def riderPhase : OrderStatus → Bool
  | .rider_assigned => true
  | .rider_en_route_pickup => true
  | .rider_at_restaurant => true
  | .order_picked_up => true
  | .rider_en_route_delivery => true
  | .rider_at_delivery => true
  | _ => false

/-- The rider id an order holds while in the rider phase, as a multiset. -/
def orderContrib (o : Order) : Multiset String :=
  if riderPhase o.status then
    (match o.assigned_rider with
     | some rid => {rid}
     | none => 0)
  else 0

/-- Multiset of rider ids held by the non-terminal assigned orders of the map. -/
def assignedRiders : List (String × Order) → Multiset String
  | [] => 0
  | p :: rest => orderContrib p.2 + assignedRiders rest

theorem assignedRiders_append (l1 l2 : List (String × Order)) :
    assignedRiders (l1 ++ l2) = assignedRiders l1 + assignedRiders l2 := by
  induction l1 with
  | nil => simp [assignedRiders]
  | cons p rest ih => simp [assignedRiders, ih, add_assoc]

theorem setKey_not_mem {κ α : Type} [DecidableEq κ] (k : κ) (f : α → α)
    (m : List (κ × α)) (h : k ∉ m.map Prod.fst) : setKey k f m = m := by
  induction m with
  | nil => rfl
  | cons p rest ih =>
      simp only [List.map, List.mem_cons, not_or] at h
      have hp1 : ¬ p.1 = k := fun hc => h.1 hc.symm
      simp [setKey, hp1, ih h.2]

theorem lookupKey_not_mem {κ α : Type} [DecidableEq κ] (k : κ)
    (m : List (κ × α)) (h : lookupKey k m = none) : k ∉ m.map Prod.fst := by
  intro hc
  rcases lookupKey_isSome_of_mem k m hc with ⟨v, hv⟩
  rw [h] at hv
  exact Option.noConfusion hv

theorem assignedRiders_setKey (orders : List (String × Order)) (oid : String)
    (o : Order) (f : Order → Order) (hnd : (orders.map Prod.fst).Nodup)
    (hlk : lookupKey oid orders = some o) :
    assignedRiders (setKey oid f orders) + orderContrib o
      = assignedRiders orders + orderContrib (f o) := by
  induction orders with
  | nil => simp [lookupKey] at hlk
  | cons p rest ih =>
      obtain ⟨a, b⟩ := p
      simp only [List.map, List.nodup_cons] at hnd
      by_cases ha : a = oid
      · subst ha
        simp only [lookupKey, if_pos rfl] at hlk
        have hb : b = o := Option.some.inj hlk
        subst hb
        have hrest : setKey a f rest = rest :=
          setKey_not_mem a f rest hnd.1
        simp only [setKey, if_pos rfl, assignedRiders, hrest]
        ac_rfl
      · simp only [lookupKey, if_neg ha] at hlk
        simp only [setKey, if_neg ha, assignedRiders]
        rw [add_assoc, ih hnd.2 hlk, ← add_assoc]

/-- Per-order invariant: the recorded statuses are exactly the canonical
prefix ending at the order's current status. -/
def OrderInv (o : Order) : Prop :=
  o.status_history.map HistoryEntry.status = canonicalOrder.take (statusIdx o.status + 1)

theorem OrderInv_add_status (o : Order) (st : OrderStatus) (note : String)
    (h : OrderInv o)
    (hstep : canonicalOrder.take (statusIdx o.status + 1) ++ [st]
      = canonicalOrder.take (statusIdx st + 1)) :
    OrderInv (o.add_status st note) := by
  unfold OrderInv Order.add_status at *
  simp [List.map_append, h, hstep]

/-- The platform invariant maintained by guarded traces: unique order and
rider keys, canonical histories, a rider bound to every rider-phase order,
only available registered riders queued, and queue conservation. -/
def PInv (s : PState) : Prop :=
  (s.orders.map Prod.fst).Nodup ∧
  (s.riders.map Prod.fst).Nodup ∧
  (∀ p ∈ s.orders, OrderInv p.2 ∧
      (riderPhase p.2.status = true → p.2.assigned_rider.isSome = true)) ∧
  (∀ rid ∈ s.rider_queue, ∃ r, lookupKey rid s.riders = some r ∧ r.is_available = true) ∧
  ((s.rider_queue : Multiset String) + assignedRiders s.orders
      = (s.riders.map Prod.fst : Multiset String))

theorem mem_assignedRiders (orders : List (String × Order)) (p : String × Order)
    (rid : String) (hp : p ∈ orders) (hc : rid ∈ orderContrib p.2) :
    rid ∈ assignedRiders orders := by
  induction orders with
  | nil => simp at hp
  | cons q rest ih =>
      rcases List.mem_cons.mp hp with h | h
      · subst h
        simp only [assignedRiders, Multiset.mem_add]
        exact Or.inl hc
      · simp only [assignedRiders, Multiset.mem_add]
        exact Or.inr (ih h)

/-- A rider held by a rider-phase order is registered and is not queued. -/
theorem queued_ne_assigned (s : PState) (hInv : PInv s) (oid : String) (o : Order)
    (rid : String) (hlk : lookupKey oid s.orders = some o)
    (hph : riderPhase o.status = true) (har : o.assigned_rider = some rid) :
    rid ∉ s.rider_queue ∧ rid ∈ s.riders.map Prod.fst := by
  obtain ⟨hnd, hndr, hords, hqav, hcons⟩ := hInv
  have hc : rid ∈ orderContrib o := by
    simp [orderContrib, hph, har]
  have hmem : rid ∈ assignedRiders s.orders :=
    mem_assignedRiders s.orders (oid, o) rid (lookupKey_mem oid o s.orders hlk) hc
  have hrhs : rid ∈ (s.riders.map Prod.fst : Multiset String) := by
    rw [← hcons]
    exact Multiset.mem_add.mpr (Or.inr hmem)
  have hreg : rid ∈ s.riders.map Prod.fst := by
    simpa using hrhs
  refine ⟨?_, hreg⟩
  intro hq
  have hcount : Multiset.count rid ((s.riders.map Prod.fst : List String) : Multiset String) ≤ 1 := by
    rw [Multiset.coe_count]
    exact List.nodup_iff_count_le_one.mp hndr rid
  have h1 : 1 ≤ Multiset.count rid (s.rider_queue : Multiset String) :=
    Multiset.one_le_count_iff_mem.mpr (by simpa using hq)
  have h2 : 1 ≤ Multiset.count rid (assignedRiders s.orders) :=
    Multiset.one_le_count_iff_mem.mpr hmem
  have := congrArg (Multiset.count rid) hcons
  rw [Multiset.count_add] at this
  omega

theorem PInv_initState : PInv initState := by
  refine ⟨List.nodup_nil, List.nodup_nil, ?_, ?_, ?_⟩
  · intro p hp; simp [initState] at hp
  · intro rid hq; simp [initState] at hq
  · simp [initState, assignedRiders]

/-- An operation that rewrites one existing order in place (riders, queue
untouched), preserving the per-order invariant and the rider contribution,
preserves the platform invariant. -/
theorem PInv_update_order (s s2 : PState) (oid : String) (o : Order)
    (f : Order → Order) (hInv : PInv s) (hlk : lookupKey oid s.orders = some o)
    (ho : s2.orders = setKey oid f s.orders)
    (hr : s2.riders = s.riders) (hq : s2.rider_queue = s.rider_queue)
    (hOI : OrderInv o → OrderInv (f o))
    (hphase : riderPhase (f o).status = true → (f o).assigned_rider.isSome = true)
    (hcontrib : orderContrib (f o) = orderContrib o) :
    PInv s2 := by
  obtain ⟨hnd, hndr, hords, hqav, hcons⟩ := hInv
  refine ⟨?_, ?_, ?_, ?_, ?_⟩
  · rw [ho, keys_setKey]; exact hnd
  · rw [hr]; exact hndr
  · intro p hp
    rw [ho] at hp
    rcases mem_setKey oid f s.orders p hp with ⟨q, hq2, hpq⟩
    by_cases hqk : q.1 = oid
    · have hlq : lookupKey q.1 s.orders = some q.2 :=
        lookupKey_of_mem_nodup s.orders q hnd hq2
      rw [hqk, hlk] at hlq
      have hq2o : q.2 = o := Option.some.inj hlq.symm ▸ rfl
      rw [if_pos hqk] at hpq
      rw [hpq]
      constructor
      · exact hq2o ▸ hOI (hq2o ▸ (hords q hq2).1)
      · exact hq2o ▸ hphase
    · rw [if_neg hqk] at hpq
      rw [hpq]
      exact hords q hq2
  · intro rid hq2
    rw [hq] at hq2
    rw [hr]
    exact hqav rid hq2
  · rw [hq, hr, ho]
    have hset := assignedRiders_setKey s.orders oid o f hnd hlk
    rw [hcontrib] at hset
    have hM : assignedRiders (setKey oid f s.orders) = assignedRiders s.orders :=
      add_right_cancel hset
    rw [hM]
    exact hcons

theorem PInv_register_customer (s : PState) (cid name email phone : String)
    (loc : Location) (h : PInv s) :
    PInv (register_customer s cid name email phone loc) := by
  obtain ⟨hnd, hndr, hords, hqav, hcons⟩ := h
  exact ⟨hnd, hndr, hords, hqav, hcons⟩

theorem PInv_register_restaurant (s : PState) (rid name : String) (loc : Location)
    (email phone bank : String) (h : PInv s) :
    PInv (register_restaurant s rid name loc email phone bank) := by
  obtain ⟨hnd, hndr, hords, hqav, hcons⟩ := h
  exact ⟨hnd, hndr, hords, hqav, hcons⟩

theorem PInv_register_rider (s : PState) (rid name email phone : String)
    (loc : Location) (bank : String) (h : PInv s)
    (hfresh : lookupKey rid s.riders = none) :
    PInv (register_rider s rid name email phone loc bank) := by
  obtain ⟨hnd, hndr, hords, hqav, hcons⟩ := h
  have hnotmem : rid ∉ s.riders.map Prod.fst := lookupKey_not_mem rid s.riders hfresh
  have hins : dictInsert rid (⟨rid, name, email, phone, loc, bank, true, 5, 0⟩ : Rider) s.riders
      = s.riders ++ [(rid, ⟨rid, name, email, phone, loc, bank, true, 5, 0⟩)] := by
    unfold dictInsert
    rw [hfresh]
    rfl
  refine ⟨hnd, ?_, hords, ?_, ?_⟩
  · show ((dictInsert rid _ s.riders).map Prod.fst).Nodup
    rw [hins, List.map_append]
    simp [List.nodup_append, hndr, hnotmem]
  · intro rid2 hq2
    rcases List.mem_append.mp hq2 with hq2 | hq2
    · rcases hqav rid2 hq2 with ⟨r2, hl2, hav2⟩
      refine ⟨r2, ?_, hav2⟩
      show lookupKey rid2 (dictInsert rid _ s.riders) = some r2
      rw [hins, lookupKey_append, hl2]
    · have : rid2 = rid := by simpa using hq2
      subst this
      exact ⟨_, lookupKey_dictInsert_self _ _ _, rfl⟩
  · show ((s.rider_queue ++ [rid] : List String) : Multiset String) + assignedRiders s.orders
      = ((dictInsert rid _ s.riders).map Prod.fst : Multiset String)
    rw [hins, List.map_append, ← Multiset.coe_add, ← Multiset.coe_add, add_right_comm, hcons]
    rfl

theorem PInv_place_order (s : PState) (oid : String) (c : Customer) (r : Restaurant)
    (items : List OrderItem) (fee : Int) (h : PInv s)
    (hfresh : lookupKey oid s.orders = none) :
    PInv (place_order s oid c r items fee) := by
  obtain ⟨hnd, hndr, hords, hqav, hcons⟩ := h
  have hnotmem : oid ∉ s.orders.map Prod.fst := lookupKey_not_mem oid s.orders hfresh
  have hins : place_order s oid c r items fee
      = { s with orders := s.orders ++
          [(oid, { id := oid, customer := c, restaurant := r, items := items,
                   total_amount := itemsSubtotal items + fee, delivery_fee := fee,
                   status := .pending_payment, payment_status := .pending,
                   assigned_rider := none,
                   status_history := [⟨.pending_payment, "Order created"⟩] })] } := by
    unfold place_order dictInsert
    rw [hfresh]
    simp [Order.add_status]
  rw [hins]
  refine ⟨?_, hndr, ?_, hqav, ?_⟩
  · rw [List.map_append]
    simp [List.nodup_append, hnd, hnotmem]
  · intro p hp
    rcases List.mem_append.mp hp with hp | hp
    · exact hords p hp
    · have hpv := by simpa using hp
      rw [hpv]
      constructor
      · show OrderInv _
        simp [OrderInv, canonicalOrder, statusIdx]
      · intro hph
        simp [riderPhase] at hph
  · rw [assignedRiders_append]
    simp only [assignedRiders, orderContrib, riderPhase, if_false, add_zero, Bool.false_eq_true]
    exact hcons

theorem PInv_process_payment (s : PState) (oid : String) (h : PInv s)
    (hok : ∀ o, lookupKey oid s.orders = some o → o.status = .pending_payment) :
    PInv (process_payment s oid).state ∧ (process_payment s oid).crashed = false := by
  cases hlk : lookupKey oid s.orders with
  | none => exact ⟨by simpa [process_payment, hlk] using h, by simp [process_payment, hlk]⟩
  | some o =>
      have hst := hok o hlk
      have hstate : (process_payment s oid).state =
          { s with
            escrow_accounts := dictInsert oid ⟨o.total_amount, itemsSubtotal o.items,
              o.delivery_fee, false, false, false⟩ s.escrow_accounts,
            orders := setKey oid (fun _ =>
              { o with payment_status := .escrowed,
                       status := .restaurant_notified,
                       status_history := o.status_history ++
                         [⟨.payment_escrowed, "Payment secured"⟩,
                          ⟨.restaurant_notified, "Restaurant " ++ o.restaurant.name ++ " notified"⟩] })
              s.orders } := by
        simp [process_payment, hlk, create_escrow, Order.add_status]
      refine ⟨?_, by simp [process_payment, hlk]⟩
      rw [hstate]
      refine PInv_update_order s _ oid o _ h hlk rfl rfl rfl ?_ ?_ ?_
      · intro hO
        unfold OrderInv at hO ⊢
        rw [hst] at hO
        simp only [List.map_append, hO]
        simp [canonicalOrder, statusIdx]
      · intro hph
        simp [riderPhase] at hph
      · simp [orderContrib, riderPhase, hst]

theorem PInv_check_rider_at_restaurant (s : PState) (oid : String) (b : Bool)
    (h : PInv s) :
    PInv (check_rider_at_restaurant s oid b).state ∧
    (check_rider_at_restaurant s oid b).crashed = false := by
  cases hlk : lookupKey oid s.orders with
  | none =>
      exact ⟨by simpa [check_rider_at_restaurant, hlk] using h,
             by simp [check_rider_at_restaurant, hlk]⟩
  | some o =>
      by_cases hst : o.status = .rider_en_route_pickup
      · cases b with
        | false =>
            exact ⟨by simpa [check_rider_at_restaurant, hlk, hst] using h,
                   by simp [check_rider_at_restaurant, hlk, hst]⟩
        | true =>
            have hmem := lookupKey_mem oid o s.orders hlk
            have hords := h.2.2.1
            have hstate : (check_rider_at_restaurant s oid true).state =
                { s with orders := setKey oid (fun o2 =>
                    o2.add_status .rider_at_restaurant ("Rider at restaurant")) s.orders } := by
              simp [check_rider_at_restaurant, hlk, hst]
            refine ⟨?_, by simp [check_rider_at_restaurant, hlk, hst]⟩
            rw [hstate]
            refine PInv_update_order s _ oid o _ h hlk rfl rfl rfl ?_ ?_ ?_
            · intro hO
              exact OrderInv_add_status o _ _ hO (by rw [hst]; decide)
            · intro _
              have := (hords (oid, o) hmem).2 (by rw [hst]; rfl)
              simpa [Order.add_status] using this
            · simp [orderContrib, Order.add_status, hst, riderPhase]
      · exact ⟨by simpa [check_rider_at_restaurant, hlk, hst] using h,
               by simp [check_rider_at_restaurant, hlk, hst]⟩

theorem PInv_check_rider_at_delivery (s : PState) (oid : String) (b : Bool)
    (h : PInv s) :
    PInv (check_rider_at_delivery s oid b).state ∧
    (check_rider_at_delivery s oid b).crashed = false := by
  cases hlk : lookupKey oid s.orders with
  | none =>
      exact ⟨by simpa [check_rider_at_delivery, hlk] using h,
             by simp [check_rider_at_delivery, hlk]⟩
  | some o =>
      by_cases hst : o.status = .rider_en_route_delivery
      · cases b with
        | false =>
            exact ⟨by simpa [check_rider_at_delivery, hlk, hst] using h,
                   by simp [check_rider_at_delivery, hlk, hst]⟩
        | true =>
            have hmem := lookupKey_mem oid o s.orders hlk
            have hords := h.2.2.1
            have hstate : (check_rider_at_delivery s oid true).state =
                { s with orders := setKey oid (fun o2 =>
                    o2.add_status .rider_at_delivery ("Rider at delivery location")) s.orders } := by
              simp [check_rider_at_delivery, hlk, hst]
            refine ⟨?_, by simp [check_rider_at_delivery, hlk, hst]⟩
            rw [hstate]
            refine PInv_update_order s _ oid o _ h hlk rfl rfl rfl ?_ ?_ ?_
            · intro hO
              exact OrderInv_add_status o _ _ hO (by rw [hst]; decide)
            · intro _
              have := (hords (oid, o) hmem).2 (by rw [hst]; rfl)
              simpa [Order.add_status] using this
            · simp [orderContrib, Order.add_status, hst, riderPhase]
      · exact ⟨by simpa [check_rider_at_delivery, hlk, hst] using h,
               by simp [check_rider_at_delivery, hlk, hst]⟩

theorem PInv_rider_accept (s : PState) (oid : String) (h : PInv s) :
    PInv (rider_accept_order s oid).state ∧
    (rider_accept_order s oid).crashed = false := by
  cases hlk : lookupKey oid s.orders with
  | none =>
      exact ⟨by simpa [rider_accept_order, hlk] using h,
             by simp [rider_accept_order, hlk]⟩
  | some o =>
      by_cases hst : o.status = .rider_assigned
      · cases har : o.assigned_rider with
        | none =>
            exact ⟨by simpa [rider_accept_order, hlk, hst, har] using h,
                   by simp [rider_accept_order, hlk, hst, har]⟩
        | some rid =>
            have hqa := queued_ne_assigned s h oid o rid hlk (by rw [hst]; rfl) har
            obtain ⟨hnd, hndr, hords, hqav, hcons⟩ := h
            have hstate : (rider_accept_order s oid).state =
                { s with
                  riders := setKey rid (fun r => { r with is_available := false }) s.riders,
                  orders := setKey oid (fun o2 =>
                    o2.add_status .rider_en_route_pickup ("Rider en route to restaurant")) s.orders } := by
              simp [rider_accept_order, hlk, hst, har]
            refine ⟨?_, by simp [rider_accept_order, hlk, hst, har]⟩
            rw [hstate]
            refine ⟨?_, ?_, ?_, ?_, ?_⟩
            · show ((setKey oid _ s.orders).map Prod.fst).Nodup
              rw [keys_setKey]; exact hnd
            · show ((setKey rid _ s.riders).map Prod.fst).Nodup
              rw [keys_setKey]; exact hndr
            · intro p hp
              rcases mem_setKey oid _ s.orders p hp with ⟨q, hq2, hpq⟩
              by_cases hqk : q.1 = oid
              · have hlq := lookupKey_of_mem_nodup s.orders q hnd hq2
                rw [hqk, hlk] at hlq
                have hq2o : q.2 = o := Option.some.inj hlq.symm ▸ rfl
                rw [if_pos hqk] at hpq
                rw [hpq, hq2o]
                constructor
                · exact OrderInv_add_status o _ _ (hq2o ▸ (hords q hq2).1) (by rw [hst]; decide)
                · intro _; simp [Order.add_status, har]
              · rw [if_neg hqk] at hpq
                rw [hpq]
                exact hords q hq2
            · intro rid2 hq2
              rcases hqav rid2 hq2 with ⟨r2, hl2, hav2⟩
              have hne2 : rid2 ≠ rid := fun hc => hqa.1 (hc ▸ hq2)
              exact ⟨r2, by rw [lookupKey_setKey_ne rid rid2 _ s.riders hne2]; exact hl2, hav2⟩
            · show (s.rider_queue : Multiset String) + assignedRiders (setKey oid _ s.orders)
                = ((setKey rid _ s.riders).map Prod.fst : Multiset String)
              have hc : orderContrib (o.add_status .rider_en_route_pickup
                  ("Rider en route to restaurant")) = orderContrib o := by
                simp [orderContrib, Order.add_status, hst, riderPhase]
              have hset := assignedRiders_setKey s.orders oid o
                (fun o2 => o2.add_status .rider_en_route_pickup ("Rider en route to restaurant"))
                hnd hlk
              rw [hc] at hset
              have hM := add_right_cancel hset
              rw [keys_setKey, hM]
              exact hcons
      · exact ⟨by simpa [rider_accept_order, hlk, hst] using h,
               by simp [rider_accept_order, hlk, hst]⟩

theorem PInv_assign_next (s : PState) (oid : String) (o : Order) (h : PInv s)
    (hlk : lookupKey oid s.orders = some o) (hst : o.status = .seeking_rider) :
    PInv (assign_next_rider_op s oid).2 := by
  cases hq : s.rider_queue with
  | nil =>
      have hassign : assign_next_rider s.riders s.rider_queue = (none, []) := by
        rw [hq]; rfl
      have hstate : (assign_next_rider_op s oid).2 = { s with rider_queue := [] } := by
        simp [assign_next_rider_op, hassign]
      rw [hstate]
      refine ⟨h.1, h.2.1, h.2.2.1, ?_, ?_⟩
      · intro rid hr
        simp at hr
      · have hcons := h.2.2.2.2
        rw [hq] at hcons
        exact hcons
  | cons rid rest =>
      obtain ⟨r, hlr, havail⟩ := h.2.2.2.1 rid (by rw [hq]; exact List.mem_cons_self _ _)
      obtain ⟨hnd, hndr, hords, hqav, hcons⟩ := h
      have hassign : assign_next_rider s.riders s.rider_queue = (some (rid, r), rest) := by
        rw [hq]; simp [assign_next_rider, hlr, havail]
      have hstate : (assign_next_rider_op s oid).2 =
          { s with rider_queue := rest,
                   orders := setKey oid (fun o2 =>
                     ({ o2 with assigned_rider := some rid }).add_status .rider_assigned
                       ("Assigned to " ++ r.name)) s.orders } := by
        simp [assign_next_rider_op, hassign]
      rw [hstate]
      refine ⟨?_, hndr, ?_, ?_, ?_⟩
      · show ((setKey oid _ s.orders).map Prod.fst).Nodup
        rw [keys_setKey]; exact hnd
      · intro p hp
        rcases mem_setKey oid _ s.orders p hp with ⟨q, hq2, hpq⟩
        by_cases hqk : q.1 = oid
        · have hlq := lookupKey_of_mem_nodup s.orders q hnd hq2
          rw [hqk, hlk] at hlq
          have hq2o : q.2 = o := Option.some.inj hlq.symm ▸ rfl
          rw [if_pos hqk] at hpq
          rw [hpq, hq2o]
          constructor
          · exact OrderInv_add_status _ _ _ (hq2o ▸ (hords q hq2).1) (by rw [hst]; decide)
          · intro _
            simp [Order.add_status]
        · rw [if_neg hqk] at hpq
          rw [hpq]
          exact hords q hq2
      · intro rid2 hr2
        exact hqav rid2 (by rw [hq]; exact List.mem_cons_of_mem _ hr2)
      · show (rest : Multiset String) + assignedRiders (setKey oid _ s.orders)
          = (s.riders.map Prod.fst : Multiset String)
        have hco : orderContrib o = 0 := by
          simp [orderContrib, hst, riderPhase]
        have hcf : orderContrib (({ o with assigned_rider := some rid }).add_status
            .rider_assigned ("Assigned to " ++ r.name)) = {rid} := by
          simp [orderContrib, Order.add_status, riderPhase]
        have hset := assignedRiders_setKey s.orders oid o
          (fun o2 => ({ o2 with assigned_rider := some rid }).add_status .rider_assigned
            ("Assigned to " ++ r.name)) hnd hlk
        rw [hco, hcf, add_zero] at hset
        rw [hset]
        rw [hq] at hcons
        rw [← hcons, ← Multiset.cons_coe, ← Multiset.singleton_add]
        ac_rfl

theorem PInv_seek_rider (s : PState) (oid : String) (o : Order) (h : PInv s)
    (hlk : lookupKey oid s.orders = some o) (hst : o.status = .restaurant_confirmed) :
    PInv (seek_rider s oid) := by
  have hInv2 : PInv { s with orders := setKey oid (fun o2 =>
      o2.add_status .seeking_rider ("Finding rider")) s.orders } := by
    refine PInv_update_order s _ oid o _ h hlk rfl rfl rfl ?_ ?_ ?_
    · intro hO
      exact OrderInv_add_status o _ _ hO (by rw [hst]; decide)
    · intro hph
      simp [Order.add_status, riderPhase] at hph
    · simp [orderContrib, Order.add_status, hst, riderPhase]
  have hlk2 : lookupKey oid (setKey oid (fun o2 =>
      o2.add_status .seeking_rider ("Finding rider")) s.orders)
      = some (o.add_status .seeking_rider ("Finding rider")) := by
    rw [lookupKey_setKey, hlk]
    rfl
  exact PInv_assign_next _ oid (o.add_status .seeking_rider ("Finding rider")) hInv2 hlk2
    (by simp [Order.add_status])

theorem PInv_restaurant_confirm (s : PState) (oid : String) (h : PInv s) :
    PInv (restaurant_confirm_order s oid).state ∧
    (restaurant_confirm_order s oid).crashed = false := by
  cases hlk : lookupKey oid s.orders with
  | none =>
      exact ⟨by simpa [restaurant_confirm_order, hlk] using h,
             by simp [restaurant_confirm_order, hlk]⟩
  | some o =>
      by_cases hst : o.status = .restaurant_notified
      · cases hpay : pay_restaurant s.escrow_accounts oid with
        | mk b acc =>
            cases b with
            | false =>
                have hstate : (restaurant_confirm_order s oid).state =
                    { s with escrow_accounts := acc } := by
                  simp [restaurant_confirm_order, hlk, hst, hpay]
                refine ⟨?_, by simp [restaurant_confirm_order, hlk, hst, hpay]⟩
                rw [hstate]
                exact ⟨h.1, h.2.1, h.2.2.1, h.2.2.2.1, h.2.2.2.2⟩
            | true =>
                have hstate : (restaurant_confirm_order s oid).state =
                    seek_rider
                      ({ s with
                        escrow_accounts := acc,
                        orders := setKey oid (fun _ =>
                          ({ o with payment_status := .restaurant_paid }).add_status
                            .restaurant_confirmed ("Restaurant confirmed and paid")) s.orders })
                      oid := by
                  simp [restaurant_confirm_order, hlk, hst, hpay]
                refine ⟨?_, by simp [restaurant_confirm_order, hlk, hst, hpay]⟩
                rw [hstate]
                have hInv1 : PInv { s with
                    escrow_accounts := acc,
                    orders := setKey oid (fun _ =>
                      ({ o with payment_status := .restaurant_paid }).add_status
                        .restaurant_confirmed ("Restaurant confirmed and paid")) s.orders } := by
                  refine PInv_update_order s _ oid o _ h hlk rfl rfl rfl ?_ ?_ ?_
                  · intro hO
                    exact OrderInv_add_status _ _ _ hO (by rw [hst]; decide)
                  · intro hph
                    simp [Order.add_status, riderPhase] at hph
                  · simp [orderContrib, Order.add_status, hst, riderPhase]
                have hlk2 : lookupKey oid (setKey oid (fun _ =>
                    ({ o with payment_status := .restaurant_paid }).add_status
                      .restaurant_confirmed ("Restaurant confirmed and paid")) s.orders)
                    = some (({ o with payment_status := .restaurant_paid }).add_status
                      .restaurant_confirmed ("Restaurant confirmed and paid")) := by
                  rw [lookupKey_setKey, hlk]
                  rfl
                exact PInv_seek_rider _ oid _ hInv1 hlk2 (by simp [Order.add_status])
      · exact ⟨by simpa [restaurant_confirm_order, hlk, hst] using h,
               by simp [restaurant_confirm_order, hlk, hst]⟩

theorem PInv_confirm_pickup (s : PState) (oid : String) (h : PInv s) :
    PInv (confirm_pickup s oid).state ∧ (confirm_pickup s oid).crashed = false := by
  cases hlk : lookupKey oid s.orders with
  | none =>
      exact ⟨by simpa [confirm_pickup, hlk] using h, by simp [confirm_pickup, hlk]⟩
  | some o =>
      by_cases hst : o.status = .rider_at_restaurant
      · cases hpay : pay_rider_half s.escrow_accounts oid with
        | mk b acc =>
            cases b with
            | false =>
                have hstate : (confirm_pickup s oid).state =
                    { s with escrow_accounts := acc } := by
                  simp [confirm_pickup, hlk, hst, hpay]
                refine ⟨?_, by simp [confirm_pickup, hlk, hst, hpay]⟩
                rw [hstate]
                exact ⟨h.1, h.2.1, h.2.2.1, h.2.2.2.1, h.2.2.2.2⟩
            | true =>
                have hmem := lookupKey_mem oid o s.orders hlk
                have hords := h.2.2.1
                have hstate : (confirm_pickup s oid).state =
                    { s with
                      escrow_accounts := acc,
                      orders := setKey oid (fun _ =>
                        { o with payment_status := .rider_half_paid,
                                 status := .rider_en_route_delivery,
                                 status_history := o.status_history ++
                                   [⟨.order_picked_up, "Picked up, rider paid 50%"⟩,
                                    ⟨.rider_en_route_delivery, "En route to customer"⟩] })
                        s.orders } := by
                  simp [confirm_pickup, hlk, hst, hpay, Order.add_status]
                refine ⟨?_, by simp [confirm_pickup, hlk, hst, hpay]⟩
                rw [hstate]
                refine PInv_update_order s _ oid o _ h hlk rfl rfl rfl ?_ ?_ ?_
                · intro hO
                  unfold OrderInv at hO ⊢
                  rw [hst] at hO
                  simp only [List.map_append, hO]
                  simp [canonicalOrder, statusIdx]
                · intro _
                  have := (hords (oid, o) hmem).2 (by rw [hst]; rfl)
                  simpa using this
                · simp [orderContrib, hst, riderPhase]
      · exact ⟨by simpa [confirm_pickup, hlk, hst] using h,
               by simp [confirm_pickup, hlk, hst]⟩

theorem PInv_confirm_delivery (s : PState) (oid : String) (h : PInv s) :
    PInv (confirm_delivery s oid).state ∧ (confirm_delivery s oid).crashed = false := by
  cases hlk : lookupKey oid s.orders with
  | none =>
      exact ⟨by simpa [confirm_delivery, hlk] using h, by simp [confirm_delivery, hlk]⟩
  | some o =>
      by_cases hst : o.status = .rider_at_delivery
      · cases hpay : pay_rider_full s.escrow_accounts oid with
        | mk b acc =>
            cases b with
            | false =>
                have hstate : (confirm_delivery s oid).state =
                    { s with escrow_accounts := acc } := by
                  simp [confirm_delivery, hlk, hst, hpay]
                refine ⟨?_, by simp [confirm_delivery, hlk, hst, hpay]⟩
                rw [hstate]
                exact ⟨h.1, h.2.1, h.2.2.1, h.2.2.2.1, h.2.2.2.2⟩
            | true =>
                have hmem := lookupKey_mem oid o s.orders hlk
                have hiso := (h.2.2.1 (oid, o) hmem).2 (by rw [hst]; rfl)
                cases har : o.assigned_rider with
                | none => rw [har] at hiso; simp at hiso
                | some rid =>
                    have hqa := queued_ne_assigned s h oid o rid hlk (by rw [hst]; rfl) har
                    obtain ⟨hnd, hndr, hords, hqav, hcons⟩ := h
                    rcases lookupKey_isSome_of_mem rid s.riders hqa.2 with ⟨r, hlr⟩
                    have hstate : (confirm_delivery s oid).state =
                        { s with
                          escrow_accounts := acc,
                          orders := setKey oid (fun _ =>
                            { o with payment_status := .rider_full_paid,
                                     status := .delivered,
                                     status_history := o.status_history ++
                                       [⟨.delivered, "Delivered, rider paid 100%"⟩] }) s.orders,
                          riders := setKey rid (fun r2 =>
                            { r2 with total_deliveries := r2.total_deliveries + 1,
                                      is_available := true }) s.riders,
                          rider_queue := s.rider_queue ++ [rid] } := by
                      simp [confirm_delivery, hlk, hst, hpay, har, Order.add_status]
                    refine ⟨?_, by simp [confirm_delivery, hlk, hst, hpay, har]⟩
                    rw [hstate]
                    refine ⟨?_, ?_, ?_, ?_, ?_⟩
                    · show ((setKey oid _ s.orders).map Prod.fst).Nodup
                      rw [keys_setKey]; exact hnd
                    · show ((setKey rid _ s.riders).map Prod.fst).Nodup
                      rw [keys_setKey]; exact hndr
                    · intro p hp
                      rcases mem_setKey oid _ s.orders p hp with ⟨q, hq2, hpq⟩
                      by_cases hqk : q.1 = oid
                      · have hlq := lookupKey_of_mem_nodup s.orders q hnd hq2
                        rw [hqk, hlk] at hlq
                        have hq2o : q.2 = o := Option.some.inj hlq.symm ▸ rfl
                        rw [if_pos hqk] at hpq
                        rw [hpq]
                        constructor
                        · show OrderInv _
                          have hO : OrderInv o := hq2o ▸ (hords q hq2).1
                          unfold OrderInv at hO ⊢
                          rw [hst] at hO
                          simp only [List.map_append, hO]
                          simp [canonicalOrder, statusIdx]
                        · intro hph
                          simp [riderPhase] at hph
                      · rw [if_neg hqk] at hpq
                        rw [hpq]
                        exact hords q hq2
                    · intro rid2 hq2
                      rcases List.mem_append.mp hq2 with hq2 | hq2
                      · rcases hqav rid2 hq2 with ⟨r2, hl2, hav2⟩
                        have hne2 : rid2 ≠ rid := fun hc => hqa.1 (hc ▸ hq2)
                        refine ⟨r2, ?_, hav2⟩
                        rw [lookupKey_setKey_ne rid rid2 _ s.riders hne2]
                        exact hl2
                      · have heq : rid2 = rid := by simpa using hq2
                        subst heq
                        have hlset : lookupKey rid2 (setKey rid2 (fun r2 =>
                            { r2 with total_deliveries := r2.total_deliveries + 1,
                                      is_available := true }) s.riders)
                            = some { r with total_deliveries := r.total_deliveries + 1,
                                            is_available := true } := by
                          rw [lookupKey_setKey, hlr]
                          rfl
                        exact ⟨_, hlset, rfl⟩
                    · show ((s.rider_queue ++ [rid] : List String) : Multiset String)
                          + assignedRiders (setKey oid _ s.orders)
                          = ((setKey rid _ s.riders).map Prod.fst : Multiset String)
                      have hco : orderContrib o = {rid} := by
                        simp [orderContrib, hst, riderPhase, har]
                      have hcf : orderContrib { o with
                          payment_status := .rider_full_paid,
                          status := .delivered,
                          status_history := o.status_history ++
                            [⟨.delivered, "Delivered, rider paid 100%"⟩] } = 0 := by
                        simp [orderContrib, riderPhase]
                      have hset := assignedRiders_setKey s.orders oid o (fun _ =>
                        { o with payment_status := .rider_full_paid,
                                 status := .delivered,
                                 status_history := o.status_history ++
                                   [⟨.delivered, "Delivered, rider paid 100%"⟩] }) hnd hlk
                      rw [hco, hcf, add_zero] at hset
                      rw [keys_setKey, ← hcons, ← Multiset.coe_add, Multiset.coe_singleton,
                        add_assoc, add_comm ({rid} : Multiset String) _, hset]
      · exact ⟨by simpa [confirm_delivery, hlk, hst] using h,
               by simp [confirm_delivery, hlk, hst]⟩

theorem step_preserves_PInv (op : Op) (s : PState) (h : PInv s)
    (hok : opOKb op s = true) :
    PInv (step op s).state ∧ (step op s).crashed = false := by
  cases op with
  | register_customer cid name email phone loc =>
      exact ⟨PInv_register_customer s cid name email phone loc h, rfl⟩
  | register_restaurant rid name loc email phone bank =>
      exact ⟨PInv_register_restaurant s rid name loc email phone bank h, rfl⟩
  | register_rider rid name email phone loc bank =>
      have hfresh : lookupKey rid s.riders = none :=
        Option.isNone_iff_eq_none.mp (by simpa [opOKb] using hok)
      exact ⟨PInv_register_rider s rid name email phone loc bank h hfresh, rfl⟩
  | place_order oid c r items fee =>
      have hfresh : lookupKey oid s.orders = none :=
        Option.isNone_iff_eq_none.mp (by simpa [opOKb] using hok)
      exact ⟨PInv_place_order s oid c r items fee h hfresh, rfl⟩
  | process_payment oid =>
      apply PInv_process_payment s oid h
      intro o hlko
      simpa [opOKb, hlko] using hok
  | restaurant_confirm_order oid => exact PInv_restaurant_confirm s oid h
  | rider_accept_order oid => exact PInv_rider_accept s oid h
  | check_rider_at_restaurant oid b => exact PInv_check_rider_at_restaurant s oid b h
  | confirm_pickup oid => exact PInv_confirm_pickup s oid h
  | check_rider_at_delivery oid b => exact PInv_check_rider_at_delivery s oid b h
  | confirm_delivery oid => exact PInv_confirm_delivery s oid h

theorem greach_PInv (s : PState) (h : GReach s) : PInv s := by
  induction h with
  | init => exact PInv_initState
  | step op s2 hs hok ih => exact (step_preserves_PInv op s2 ih hok).1

/-- C5 (amended): for every order of a state reachable from the empty
platform by engine operations issued by a well-behaved caller (fresh uuids;
`processPayment` — the one unguarded transition — only invoked in its
documented `PENDING_PAYMENT` precondition state): its status history is
non-empty, and the recorded statuses are exactly the prefix of the canonical
12-step ordering ending at the order's current status — in particular a
subsequence of the canonical ordering with no skips and no out-of-order
entries. Without the processPayment restriction the property is false (see
the counterexample: a replayed processPayment records out-of-order,
duplicated entries). -/
theorem C5_amended_history_prefix (s : PState) (hs : GReach s) (oid : String)
    (o : Order) (hlk : lookupKey oid s.orders = some o) :
    o.status_history ≠ [] ∧
    o.status_history.map HistoryEntry.status
      = canonicalOrder.take (statusIdx o.status + 1) ∧
    (o.status_history.map HistoryEntry.status).Sublist canonicalOrder := by
  have hInv := greach_PInv s hs
  have hO := (hInv.2.2.1 (oid, o) (lookupKey_mem oid o s.orders hlk)).1
  refine ⟨?_, hO, ?_⟩
  · intro hemp
    unfold OrderInv at hO
    rw [hemp] at hO
    cases hs2 : o.status <;> rw [hs2] at hO <;> simp [canonicalOrder, statusIdx] at hO
  · rw [hO]
    exact List.take_sublist _ _

/-- C6 (amended): in every state reachable from the empty platform by engine
operations issued by a well-behaved caller (fresh uuids; `processPayment`
only invoked in `PENDING_PAYMENT`), the multiset of rider ids in the
dispatch queue together with the riders assigned to a non-terminal
(rider-phase) order equals the multiset of all registered rider ids: no
rider is lost and none is duplicated. Without the processPayment restriction
conservation is false (see the counterexample: a replayed
processPayment/confirm cycle re-assigns the order and strands its first
rider). -/
theorem C6_amended_conservation (s : PState) (hs : GReach s) :
    (s.rider_queue : Multiset String) + assignedRiders s.orders
      = (s.riders.map Prod.fst : Multiset String) :=
  (greach_PInv s hs).2.2.2.2

theorem assign_skip_stale (riders : List (String × Rider)) (l1 l2 : List String)
    (hstale : ∀ x ∈ l1, ∀ r, lookupKey x riders = some r → r.is_available = false) :
    assign_next_rider riders (l1 ++ l2) = assign_next_rider riders l2 := by
  induction l1 with
  | nil => rfl
  | cons x xs ih =>
      have hxs : ∀ x2 ∈ xs, ∀ r, lookupKey x2 riders = some r → r.is_available = false :=
        fun x2 hm r hr => hstale x2 (List.mem_cons_of_mem _ hm) r hr
      cases hlx : lookupKey x riders with
      | none => simpa [assign_next_rider, hlx] using ih hxs
      | some r =>
          have hav := hstale x (List.mem_cons_self _ _) r hlx
          simpa [assign_next_rider, hlx, hav] using ih hxs

theorem assign_next_rider_some (riders : List (String × Rider)) (queue : List String)
    (x0 : String) (r0 : Rider) (hmem : x0 ∈ queue)
    (hl : lookupKey x0 riders = some r0) (hav : r0.is_available = true) :
    ∃ x r rest, assign_next_rider riders queue = (some (x, r), rest) := by
  induction queue with
  | nil => simp at hmem
  | cons y ys ih =>
      cases hly : lookupKey y riders with
      | none =>
          have hne : x0 ≠ y := fun hc => by rw [hc, hly] at hl; exact Option.noConfusion hl
          have hmem2 : x0 ∈ ys := by
            rcases List.mem_cons.mp hmem with hc | hc
            · exact absurd hc hne
            · exact hc
          rcases ih hmem2 with ⟨x, r, rest, hres⟩
          exact ⟨x, r, rest, by simpa [assign_next_rider, hly] using hres⟩
      | some r =>
          by_cases hrav : r.is_available
          · exact ⟨y, r, ys, by simp [assign_next_rider, hly, hrav]⟩
          · have hne : x0 ≠ y := by
              intro hc
              rw [hc, hly] at hl
              have hrr := Option.some.inj hl
              rw [hrr] at hrav
              exact hrav hav
            have hmem2 : x0 ∈ ys := by
              rcases List.mem_cons.mp hmem with hc | hc
              · exact absurd hc hne
              · exact hc
            rcases ih hmem2 with ⟨x, r2, rest, hres⟩
            exact ⟨x, r2, rest, by simpa [assign_next_rider, hly, hrav] using hres⟩

theorem assign_next_rider_found (riders : List (String × Rider)) (queue : List String)
    (x : String) (r : Rider) (rest : List String)
    (h : assign_next_rider riders queue = (some (x, r), rest)) :
    x ∈ queue ∧ lookupKey x riders = some r ∧ r.is_available = true := by
  induction queue with
  | nil => simp [assign_next_rider] at h
  | cons y ys ih =>
      cases hly : lookupKey y riders with
      | none =>
          rw [show assign_next_rider riders (y :: ys) = assign_next_rider riders ys from by
            simp [assign_next_rider, hly]] at h
          rcases ih h with ⟨hm, hl, hav⟩
          exact ⟨List.mem_cons_of_mem _ hm, hl, hav⟩
      | some r2 =>
          by_cases hrav : r2.is_available
          · rw [show assign_next_rider riders (y :: ys) = (some (y, r2), ys) from by
              simp [assign_next_rider, hly, hrav]] at h
            simp at h
            rcases h with ⟨⟨h1, h2⟩, h3⟩
            subst h1
            rw [← h2]
            exact ⟨List.mem_cons_self _ _, hly, hrav⟩
          · rw [show assign_next_rider riders (y :: ys) = assign_next_rider riders ys from by
              simp [assign_next_rider, hly, hrav]] at h
            rcases ih h with ⟨hm, hl, hav⟩
            exact ⟨List.mem_cons_of_mem _ hm, hl, hav⟩

/-- C7 (amended): for an order in `RIDER_ASSIGNED` with a bound registered
rider that is (as in every reachable state) not also queued,
riderRejectOrTimeout re-marks that rider available, returns it to the queue
and reassigns: the operation reports success and leaves the order in
`RIDER_ASSIGNED` with a bound rider again — a rider taken from the old queue,
or the very same rider when no other available rider was queued. The
spec's claimed outcome "a new rider, or unchanged if none available" fails in
that last case: the same rider is immediately reassigned and the state does
change (see the counterexample). -/
theorem C7_amended_reassignment (s : PState) (oid : String) (o : Order)
    (rid : String) (r : Rider) (hlk : lookupKey oid s.orders = some o)
    (hst : o.status = .rider_assigned) (har : o.assigned_rider = some rid)
    (hreg : lookupKey rid s.riders = some r) (hnq : rid ∉ s.rider_queue) :
    (rider_reject_or_timeout s oid).crashed = false ∧
    (rider_reject_or_timeout s oid).ret = true ∧
    lookupKey rid (rider_reject_or_timeout s oid).state.riders
      = some { r with is_available := true } ∧
    (∃ o2 rid2, lookupKey oid (rider_reject_or_timeout s oid).state.orders = some o2 ∧
      o2.status = .rider_assigned ∧ o2.assigned_rider = some rid2 ∧
      (rid2 ∈ s.rider_queue ∨ rid2 = rid)) ∧
    ((∀ q2 ∈ s.rider_queue, ∀ r2, lookupKey q2 s.riders = some r2 →
        r2.is_available = false) →
      ∃ o2, lookupKey oid (rider_reject_or_timeout s oid).state.orders = some o2 ∧
        o2.assigned_rider = some rid) := by
  have hlr1 : lookupKey rid (setKey rid (fun r2 => { r2 with is_available := true }) s.riders)
      = some { r with is_available := true } := by
    rw [lookupKey_setKey, hreg]
    rfl
  have hout : rider_reject_or_timeout s oid =
      ⟨(assign_next_rider_op { s with
          rider_queue := s.rider_queue ++ [rid],
          riders := setKey rid (fun r2 => { r2 with is_available := true }) s.riders,
          orders := setKey oid (fun o2 => { o2 with assigned_rider := none }) s.orders } oid).1,
        (assign_next_rider_op { s with
          rider_queue := s.rider_queue ++ [rid],
          riders := setKey rid (fun r2 => { r2 with is_available := true }) s.riders,
          orders := setKey oid (fun o2 => { o2 with assigned_rider := none }) s.orders } oid).2,
        false⟩ := by
    simp [rider_reject_or_timeout, hlk, hst, har]
  rcases assign_next_rider_some
      (setKey rid (fun r2 => { r2 with is_available := true }) s.riders)
      (s.rider_queue ++ [rid]) rid { r with is_available := true }
      (List.mem_append.mpr (Or.inr (List.mem_singleton.mpr rfl))) hlr1 rfl with
    ⟨x, rx, rest, hassign⟩
  rcases assign_next_rider_found _ _ _ _ _ hassign with ⟨hxmem, hxlook, hxav⟩
  have hlko1 : lookupKey oid (setKey oid (fun o2 => { o2 with assigned_rider := none }) s.orders)
      = some { o with assigned_rider := none } := by
    rw [lookupKey_setKey, hlk]
    rfl
  have hop : assign_next_rider_op { s with
      rider_queue := s.rider_queue ++ [rid],
      riders := setKey rid (fun r2 => { r2 with is_available := true }) s.riders,
      orders := setKey oid (fun o2 => { o2 with assigned_rider := none }) s.orders } oid
      = (true, { s with
          rider_queue := rest,
          riders := setKey rid (fun r2 => { r2 with is_available := true }) s.riders,
          orders := setKey oid (fun o2 =>
            ({ o2 with assigned_rider := some x }).add_status .rider_assigned
              ("Assigned to " ++ rx.name))
            (setKey oid (fun o2 => { o2 with assigned_rider := none }) s.orders) }) := by
    simp only [assign_next_rider_op]
    rw [hassign]
  have hlko2 : lookupKey oid (setKey oid (fun o2 =>
      ({ o2 with assigned_rider := some x }).add_status .rider_assigned
        ("Assigned to " ++ rx.name))
      (setKey oid (fun o2 => { o2 with assigned_rider := none }) s.orders))
      = some (({ o with assigned_rider := some x }).add_status .rider_assigned
        ("Assigned to " ++ rx.name)) := by
    rw [lookupKey_setKey, hlko1]
    rfl
  refine ⟨by rw [hout], by rw [hout, hop], ?_, ?_, ?_⟩
  · rw [hout, hop]
    exact hlr1
  · refine ⟨_, x, by rw [hout, hop]; exact hlko2, by simp [Order.add_status], ?_, ?_⟩
    · simp [Order.add_status]
    · rcases List.mem_append.mp hxmem with hx | hx
      · exact Or.inl hx
      · exact Or.inr (by simpa using hx)
  · intro hstale
    have hstale2 : ∀ q2 ∈ s.rider_queue, ∀ r2,
        lookupKey q2 (setKey rid (fun r2 => { r2 with is_available := true }) s.riders)
          = some r2 → r2.is_available = false := by
      intro q2 hq2 r2 hl2
      have hne : q2 ≠ rid := fun hc => hnq (hc ▸ hq2)
      rw [lookupKey_setKey_ne rid q2 _ s.riders hne] at hl2
      exact hstale q2 hq2 r2 hl2
    have hskip := assign_skip_stale
      (setKey rid (fun r2 => { r2 with is_available := true }) s.riders)
      s.rider_queue [rid] hstale2
    have hsingle : assign_next_rider
        (setKey rid (fun r2 => { r2 with is_available := true }) s.riders) [rid]
        = (some (rid, { r with is_available := true }), []) := by
      simp [assign_next_rider, hlr1]
    rw [hskip, hsingle] at hassign
    have hx : x = rid := by
      have := congrArg Prod.fst hassign
      simp at this
      exact this.1.symm
    refine ⟨_, by rw [hout, hop]; exact hlko2, ?_⟩
    rw [hx]
    simp [Order.add_status]

/-- Whether a journey value is a coordinate pair. -/
def JValue.isCoords : JValue → Bool
  | .coords _ _ => true
  | _ => false

/-- The coordinate-valued components of a journey projection. -/
def journeyCoordValues (j : List (String × JValue)) : List (String × JValue) :=
  j.filter (fun p => p.2.isCoords)

/-- C8 (amended): `get_order_journey` is a read-only projection (it takes
the state and order and returns only a record, mutating nothing): it maps
the order's status through the fixed `journey_map` lookup to the ordinal
step `statusIdx + 1` (always between 1 and 12 — with the exhaustive
12-member status enum the `step 0 / Unknown` default of the lookup is
unreachable), reports `total_steps = 12` and
`progress_percentage = step / 12 * 100`, returns the assigned rider's
display name (or null when no rider is bound), and the full ordered history
log oldest first. Contrary to the claim, the projection contains no
rider-coordinates component at all (see the counterexample). -/
theorem C8_amended_journey (s : PState) (o : Order) :
    lookupKey "order_id" (get_order_journey s o) = some (JValue.str o.id) ∧
    lookupKey "current_status" (get_order_journey s o) = some (JValue.str o.status.value) ∧
    lookupKey "current_step" (get_order_journey s o)
      = some (JValue.nat (statusIdx o.status + 1)) ∧
    lookupKey "total_steps" (get_order_journey s o) = some (JValue.nat 12) ∧
    lookupKey "progress_percentage" (get_order_journey s o)
      = some (JValue.rat (((statusIdx o.status + 1 : Nat) : ℚ) / 12 * 100)) ∧
    1 ≤ statusIdx o.status + 1 ∧ statusIdx o.status + 1 ≤ 12 ∧
    lookupKey "history" (get_order_journey s o) = some (JValue.hist o.status_history) ∧
    (o.assigned_rider = none →
      lookupKey "assigned_rider" (get_order_journey s o) = some JValue.null) ∧
    (∀ rid r, o.assigned_rider = some rid → lookupKey rid s.riders = some r →
      lookupKey "assigned_rider" (get_order_journey s o) = some (JValue.str r.name)) ∧
    journeyCoordValues (get_order_journey s o) = [] := by
  refine ⟨?_, ?_, ?_, ?_, ?_, ?_, ?_, ?_, ?_, ?_, ?_⟩
  · cases ost : o.status <;>
      simp [get_order_journey, journey_map, lookupKey, statusIdx, ost]
  · cases ost : o.status <;>
      simp [get_order_journey, journey_map, lookupKey, statusIdx, ost]
  · cases ost : o.status <;>
      simp [get_order_journey, journey_map, lookupKey, statusIdx, ost]
  · cases ost : o.status <;>
      simp [get_order_journey, journey_map, lookupKey, statusIdx, ost]
  · cases ost : o.status <;>
      simp [get_order_journey, journey_map, lookupKey, statusIdx, ost]
  · omega
  · cases ost : o.status <;> simp [statusIdx, ost]
  · cases ost : o.status <;>
      simp [get_order_journey, journey_map, lookupKey, statusIdx, ost]
  · intro hnone
    cases ost : o.status <;>
      simp [get_order_journey, journey_map, lookupKey, statusIdx, ost, hnone]
  · intro rid r har hr
    cases ost : o.status <;>
      simp [get_order_journey, journey_map, lookupKey, statusIdx, ost, har, hr]
  · have hassigned : JValue.isCoords (match o.assigned_rider with
        | none => JValue.null
        | some rid =>
            match lookupKey rid s.riders with
            | some r => JValue.str r.name
            | none => JValue.null) = false := by
      cases o.assigned_rider with
      | none => rfl
      | some rid => cases hlr : lookupKey rid s.riders <;> simp [hlr, JValue.isCoords]
    simp only [JValue.isCoords] at hassigned
    cases ost : o.status <;>
      simp [get_order_journey, journeyCoordValues, journey_map, ost,
        JValue.isCoords, hassigned]

/-! Concrete data used by the counterexamples and witnesses. -/

def demoLoc : Location := ⟨0, 0, "Kampala"⟩

def demoCustomer : Customer := ⟨"c1", "Alice", "a@x", "1", demoLoc⟩

def demoRestaurant : Restaurant := ⟨"r1", "Mama Mia", demoLoc, "m@x", "2", "BANK-R", true⟩

def demoItems : List OrderItem := [⟨"Pizza", 2, 7⟩]

/-- Two riders registered, an order placed, paid for and confirmed by the
restaurant: the engine assigns the first rider, the second stays queued. -/
def opsA : List Op :=
  [.register_rider "rid1" "Bob" "b@x" "3" demoLoc "BANK-1",
   .register_rider "rid2" "Charlie" "c@x" "4" demoLoc "BANK-2",
   .place_order "o1" demoCustomer demoRestaurant demoItems 3,
   .process_payment "o1",
   .restaurant_confirm_order "o1"]

def demoFinal : PState := run opsA initState

/-- The order of `demoFinal`: assigned to the first rider. -/
def demoO1 : Order :=
  { id := "o1", customer := demoCustomer, restaurant := demoRestaurant,
    items := demoItems, total_amount := 17, delivery_fee := 3,
    status := .rider_assigned, payment_status := .restaurant_paid,
    assigned_rider := some "rid1",
    status_history :=
      [⟨.pending_payment, "Order created"⟩,
       ⟨.payment_escrowed, "Payment secured"⟩,
       ⟨.restaurant_notified, "Restaurant Mama Mia notified"⟩,
       ⟨.restaurant_confirmed, "Restaurant confirmed and paid"⟩,
       ⟨.seeking_rider, "Finding rider"⟩,
       ⟨.rider_assigned, "Assigned to Bob"⟩] }

def demoRider1 : Rider :=
  { id := "rid1", name := "Bob", email := "b@x", phone := "3",
    current_location := demoLoc, bank_account := "BANK-1",
    is_available := true, rating := 5, total_deliveries := 0 }

/-- State after place + one processPayment: the order sits in
`RESTAURANT_NOTIFIED`. -/
def wState1 : PState :=
  run [.place_order "o1" demoCustomer demoRestaurant demoItems 3,
       .process_payment "o1"] initState

def wOrder1 : Order :=
  { id := "o1", customer := demoCustomer, restaurant := demoRestaurant,
    items := demoItems, total_amount := 17, delivery_fee := 3,
    status := .restaurant_notified, payment_status := .escrowed,
    assigned_rider := none,
    status_history :=
      [⟨.pending_payment, "Order created"⟩,
       ⟨.payment_escrowed, "Payment secured"⟩,
       ⟨.restaurant_notified, "Restaurant Mama Mia notified"⟩] }

theorem demo_greach : GReach demoFinal :=
  GReach.step (.restaurant_confirm_order "o1") _
    (GReach.step (.process_payment "o1") _
      (GReach.step (.place_order "o1" demoCustomer demoRestaurant demoItems 3) _
        (GReach.step (.register_rider "rid2" "Charlie" "c@x" "4" demoLoc "BANK-2") _
          (GReach.step (.register_rider "rid1" "Bob" "b@x" "3" demoLoc "BANK-1") _
            GReach.init (by decide))
          (by decide))
        (by decide))
      (by decide))
    (by decide)

/-- C1 counterexample: `process_payment` invoked on an order that is in
`RESTAURANT_NOTIFIED` (not its required precondition state
`PENDING_PAYMENT`) returns success and mutates the state, so the claimed
guard discipline fails for processPayment. -/
theorem C1_counterexample :
    (lookupKey "o1" wState1.orders).map Order.status = some .restaurant_notified ∧
    (process_payment wState1 "o1").ret = true ∧
    (process_payment wState1 "o1").state ≠ wState1 := by decide

/-- C1 witness state and order reuse `wState1`. -/
theorem C1_witness : rider_accept_order wState1 "o1" = ⟨false, wState1, false⟩ := by
  obtain ⟨h1, h2, h3, h4, h5, h6, h7⟩ :=
    C1_amended_guards wState1 "o1" wOrder1 (by decide)
  exact h2 (by decide)

/-- C2 counterexample: after `create`, `payRestaurant`, a second `create`
for the same id flips the already-true `restaurant_paid` flag back to false
(and would likewise replace amounts), refuting the claim that no flag ever
goes from true to false under ledger operations. -/
theorem C2_counterexample :
    (lookupKey "o" (erun [] [EOp.create "o" 10 7 3, EOp.payRestaurant "o"])).map
        EscrowAccount.restaurant_paid = some true ∧
    (lookupKey "o" (erun [] [EOp.create "o" 10 7 3, EOp.payRestaurant "o",
        EOp.create "o" 10 7 3])).map EscrowAccount.restaurant_paid = some false := by
  decide

theorem C2_witness :
    EscrowAccount.rider_half_paid ⟨1, 1, 1, false, true, true⟩ = true :=
  (C2_amended_escrow_invariants).1
    [EOp.create "o" 1 1 1, EOp.payRiderHalf "o", EOp.payRiderFull "o"] "o"
    ⟨1, 1, 1, false, true, true⟩ (by decide) (by decide)

/-- C3 counterexample: a second `create_escrow` for an id whose account
already exists (and is already restaurant-paid) is not a failing no-op: it
returns true and resets the account to fresh all-false flags. -/
theorem C3_counterexample :
    (lookupKey "o" (pay_restaurant (create_escrow [] "o" 10 7 3).2 "o").2).map
        EscrowAccount.restaurant_paid = some true ∧
    (create_escrow (pay_restaurant (create_escrow [] "o" 10 7 3).2 "o").2 "o" 10 7 3).1
        = true ∧
    lookupKey "o"
        (create_escrow (pay_restaurant (create_escrow [] "o" 10 7 3).2 "o").2 "o" 10 7 3).2
      = some ⟨10, 7, 3, false, false, false⟩ := by decide

theorem C3_witness :
    lookupKey "o1" (process_payment (process_payment wState1 "o1").state "o1").state.escrow_accounts
      = some ⟨17, 14, 3, false, false, false⟩ := by
  obtain ⟨h1, h2, h3, h4⟩ :=
    C3_amended_create_overwrites [] "o1" 1 2 3 wState1 wOrder1 (by decide)
  exact h4

theorem C4_witness :
    (pay_rider_full [("o", (⟨10, 7, 3, false, true, false⟩ : EscrowAccount))] "o").1 = true :=
  (C4_two_tranche.1 [("o", ⟨10, 7, 3, false, true, false⟩)] "o").mpr
    ⟨⟨10, 7, 3, false, true, false⟩, by decide, rfl, rfl⟩

/-- State reached by replaying `process_payment` on an order that is already
`RESTAURANT_NOTIFIED`: the engine records the escrow/notification entries a
second time. -/
def ce5 : PState :=
  run [.place_order "o1" demoCustomer demoRestaurant demoItems 3,
       .process_payment "o1", .process_payment "o1"] initState

def ce5o : Order :=
  { id := "o1", customer := demoCustomer, restaurant := demoRestaurant,
    items := demoItems, total_amount := 17, delivery_fee := 3,
    status := .restaurant_notified, payment_status := .escrowed,
    assigned_rider := none,
    status_history :=
      [⟨.pending_payment, "Order created"⟩,
       ⟨.payment_escrowed, "Payment secured"⟩,
       ⟨.restaurant_notified, "Restaurant Mama Mia notified"⟩,
       ⟨.payment_escrowed, "Payment secured"⟩,
       ⟨.restaurant_notified, "Restaurant Mama Mia notified"⟩] }

/-- C5 counterexample: an order reachable by engine operations (placeOrder,
then processPayment twice — the source does not guard the second call) whose
status history is not a subsequence of the canonical 12-step ordering: it
repeats PAYMENT_ESCROWED and RESTAURANT_NOTIFIED out of order. -/
theorem C5_counterexample :
    lookupKey "o1" ce5.orders = some ce5o ∧
    ce5o.status_history.map HistoryEntry.status
      = [.pending_payment, .payment_escrowed, .restaurant_notified,
         .payment_escrowed, .restaurant_notified] ∧
    ¬ (ce5o.status_history.map HistoryEntry.status).Sublist canonicalOrder := by
  decide

theorem C5_witness :
    demoO1.status_history ≠ [] ∧
    demoO1.status_history.map HistoryEntry.status
      = canonicalOrder.take (statusIdx demoO1.status + 1) ∧
    (demoO1.status_history.map HistoryEntry.status).Sublist canonicalOrder :=
  C5_amended_history_prefix demoFinal demo_greach "o1" demoO1 (by decide)

/-- State where the replayed processPayment is followed by a second
restaurant confirmation: the order is re-assigned to the second rider and
the first rider is stranded (in no queue and on no non-terminal order). -/
def ce6 : PState :=
  run (opsA ++ [.process_payment "o1", .restaurant_confirm_order "o1"]) initState

/-- C6 counterexample: in `ce6` — reachable by engine operations — the
queue is empty and only the second rider is assigned, while two riders are
registered: the conservation multiset equation fails. -/
theorem C6_counterexample :
    ce6.rider_queue = [] ∧
    (lookupKey "o1" ce6.orders).map Order.assigned_rider = some (some "rid2") ∧
    ce6.riders.map Prod.fst = ["rid1", "rid2"] ∧
    (ce6.rider_queue : Multiset String) + assignedRiders ce6.orders
      ≠ (ce6.riders.map Prod.fst : Multiset String) := by decide

theorem C6_witness :
    (demoFinal.rider_queue : Multiset String) + assignedRiders demoFinal.orders
      = (demoFinal.riders.map Prod.fst : Multiset String) :=
  C6_amended_conservation demoFinal demo_greach

/-- Single-rider state with the order in `RIDER_ASSIGNED`: the queue is
empty, the only rider is bound to the order. -/
def ce7 : PState :=
  run [.register_rider "rid1" "Bob" "b@x" "3" demoLoc "BANK-1",
       .place_order "o1" demoCustomer demoRestaurant demoItems 3,
       .process_payment "o1",
       .restaurant_confirm_order "o1"] initState

/-- C7 counterexample: with a single registered rider,
`rider_reject_or_timeout` re-assigns the very same rider (after returning it
to the queue and popping it again) and changes the state (deadline reset,
history appended): the outcome is neither "RIDER_ASSIGNED with a new rider"
nor "unchanged", refuting the claimed outcome as stated. -/
theorem C7_counterexample :
    (lookupKey "o1" ce7.orders).map Order.assigned_rider = some (some "rid1") ∧
    (rider_reject_or_timeout ce7 "o1").ret = true ∧
    (lookupKey "o1" (rider_reject_or_timeout ce7 "o1").state.orders).map
        Order.assigned_rider = some (some "rid1") ∧
    (rider_reject_or_timeout ce7 "o1").state ≠ ce7 := by decide

theorem C7_witness :
    (rider_reject_or_timeout demoFinal "o1").ret = true ∧
    lookupKey "rid1" (rider_reject_or_timeout demoFinal "o1").state.riders
      = some { demoRider1 with is_available := true } := by
  obtain ⟨h1, h2, h3, h4, h5⟩ :=
    C7_amended_reassignment demoFinal "o1" demoO1 "rid1" demoRider1
      (by decide) (by decide) (by decide) (by decide) (by decide)
  exact ⟨h2, h3⟩

/-- C8 counterexample: in a state whose order has an assigned rider with
known current coordinates, the journey projection contains no
coordinate-valued component and no rider-coordinates key at all — the claim
that it returns "the rider's current coordinates (or null)" fails. -/
theorem C8_counterexample :
    lookupKey "o1" demoFinal.orders = some demoO1 ∧
    demoO1.assigned_rider = some "rid1" ∧
    (lookupKey "rid1" demoFinal.riders).map Rider.current_location = some demoLoc ∧
    journeyCoordValues (get_order_journey demoFinal demoO1) = [] ∧
    lookupKey "rider_coordinates" (get_order_journey demoFinal demoO1) = none := by
  decide

theorem C8_witness :
    lookupKey "current_step" (get_order_journey demoFinal demoO1)
      = some (JValue.nat 6) ∧
    lookupKey "assigned_rider" (get_order_journey demoFinal demoO1)
      = some (JValue.str "Bob") ∧
    journeyCoordValues (get_order_journey demoFinal demoO1) = [] := by
  obtain ⟨h1, h2, h3, h4, h5, h6, h7, h8, h9, h10, h11⟩ :=
    C8_amended_journey demoFinal demoO1
  exact ⟨h3, h10 "rid1" demoRider1 (by decide) (by decide), h11⟩

def staleRider : Rider :=
  { id := "rid1", name := "Bob", email := "b@x", phone := "3",
    current_location := demoLoc, bank_account := "BANK-1",
    is_available := false, rating := 5, total_deliveries := 0 }

theorem C9_witness :
    assign_next_rider [("rid1", staleRider)] ["rid1", "ghost"] = (none, []) := by
  apply (C9_assign_terminates [("rid1", staleRider)]).2 ["rid1", "ghost"]
  intro rid hm r hr
  rcases List.mem_cons.mp hm with h | h
  · subst h
    have hrr : r = staleRider := by
      have : (some staleRider : Option Rider) = some r := by
        rw [show lookupKey "rid1" [("rid1", staleRider)] = some staleRider from rfl] at hr
        rw [hr]
    -- deriving the rider value from the lookup
      exact (Option.some.inj this).symm
    rw [hrr]
    rfl
  · have h2 : rid = "ghost" := by simpa using h
    subst h2
    simp [lookupKey] at hr

def wOrder10 : Order :=
  { id := "o1", customer := demoCustomer, restaurant := demoRestaurant,
    items := demoItems, total_amount := 17, delivery_fee := 3,
    status := .rider_assigned, payment_status := .restaurant_paid,
    assigned_rider := none,
    status_history := [⟨.pending_payment, "Order created"⟩] }

def wState10 : PState := { initState with orders := [("o1", wOrder10)] }

theorem C10_witness : rider_accept_order wState10 "o1" = ⟨false, wState10, false⟩ := by
  obtain ⟨h1, h2, h3⟩ := C10_accept_requires_rider wState10 "o1" wOrder10 (by decide)
  exact h2 (by decide) (by decide)
